import Mathlib

/-!
Verification of the tool-calling orchestration loop of the pulse backend.

The definitions below are a shallow embedding of `src/app/chat.py`:

* the tool-call accumulator inside `handle_openai_streaming_response`
  (lines 352-391 of `chat.py`),
* the remote function gateway `call_supabase_edge` (lines 476-551),
* the response formatter `enhance_response_formatting` (lines 949-999),
* the message persistence helper `save_message` (lines 553-566),
* the streaming orchestration loop `handle_openai_streaming_response`
  (lines 343-472) and its wrapper `call_openai_streaming` (lines 187-341).

Text is modelled as `String` (or `List Char` where character-level scanning
is needed); network effects (the model stream, the HTTP transport, the
message store) are modelled as explicit inputs/oracles, and a Python
exception raised by such an effect is modelled with `Except`/`Option`.
-/

namespace Pulse

/-! ## Tool-call accumulator

Embeds the delta-accumulation loop of `handle_openai_streaming_response`:
a streamed tool-call delta optionally carries an index, a call id, a type,
and a function fragment (name and/or an arguments fragment).  Python
truthiness of an optional string field (`if tool_call_delta.id:`) is
`optTruthy`: the field is present and non-empty. -/

structure FuncDelta where
  name : Option String
  arguments : Option String
deriving DecidableEq

structure ToolCallDelta where
  index : Option Nat
  id : Option String
  type : Option String
  function : Option FuncDelta
deriving DecidableEq

/-- Accumulated tool call: mirrors the dict
`\x7b"id": "", "type": "function", "function": \x7b"name": "", "arguments": ""\x7d\x7d`. -/
structure ToolCallAcc where
  id : String
  type : String
  name : String
  arguments : String
deriving DecidableEq

/-- The empty placeholder appended by the padding loop (chat.py lines 363-368). -/
def emptyToolCall : ToolCallAcc :=
  { id := "", type := "function", name := "", arguments := "" }

/-- Python truthiness of an optional string field. -/
def optTruthy : Option String → Bool
  | none => false
  | some s => s ≠ ""

/-- One delta applied to the call at its index (chat.py lines 370-380):
id, type and name are overwritten when the delta carries a truthy value;
an arguments fragment is appended. -/
def updateToolCall (c : ToolCallAcc) (d : ToolCallDelta) : ToolCallAcc :=
  let c1 := if optTruthy d.id then { c with id := d.id.getD "" } else c
  let c2 := if optTruthy d.type then { c1 with type := d.type.getD "" } else c1
  match d.function with
  | none => c2
  | some f =>
    let c3 := if optTruthy f.name then { c2 with name := f.name.getD "" } else c2
    if optTruthy f.arguments then
      { c3 with arguments := c3.arguments ++ f.arguments.getD "" }
    else c3

/-- The padding loop `while len(tool_calls) <= index: tool_calls.append(...)`
(chat.py lines 363-368). -/
def padToolCalls (calls : List ToolCallAcc) (i : Nat) : List ToolCallAcc :=
  calls ++ List.replicate (i + 1 - calls.length) emptyToolCall

/-- One iteration of `for tool_call_delta in delta.tool_calls`
(chat.py lines 360-380); a delta without an index is skipped. -/
def applyToolCallDelta (calls : List ToolCallAcc) (d : ToolCallDelta) :
    List ToolCallAcc :=
  match d.index with
  | none => calls
  | some i =>
    let padded := padToolCalls calls i
    padded.set i (updateToolCall (padded.getD i emptyToolCall) d)

/-- Accumulation of a whole delta sequence, starting from a given list. -/
def accumulateToolCalls (calls : List ToolCallAcc) (ds : List ToolCallDelta) :
    List ToolCallAcc :=
  ds.foldl applyToolCallDelta calls

/-! ### Helper functions used to state properties of the accumulator -/

/-- Concatenation of a list of strings in order. -/
def strConcat : List String → String
  | [] => ""
  | s :: l => s ++ strConcat l

/-- The last non-empty string of a list, with a default for when there is none. -/
def lastKeepD (d : String) : List String → String
  | [] => d
  | s :: l => lastKeepD (if s = "" then d else s) l

/-- The first non-empty string of a list, or `""`. -/
def firstNonEmpty : List String → String
  | [] => ""
  | s :: l => if s = "" then firstNonEmpty l else s

/-- The id fragments a delta sequence carries for a given index. -/
def idFragsAt (j : Nat) (ds : List ToolCallDelta) : List String :=
  ds.filterMap (fun d => if d.index = some j then d.id else none)

/-- The function-name fragments a delta sequence carries for a given index. -/
def nameFragsAt (j : Nat) (ds : List ToolCallDelta) : List String :=
  ds.filterMap (fun d => if d.index = some j then d.function.bind FuncDelta.name else none)

/-- The arguments fragments a delta sequence carries for a given index, in order. -/
def argFragsAt (j : Nat) (ds : List ToolCallDelta) : List String :=
  ds.filterMap (fun d => if d.index = some j then d.function.bind FuncDelta.arguments else none)

/-- A head delta as the model sends it: index, id, type and whole name. -/
def headDelta (i : Nat) (idv nm : String) : ToolCallDelta :=
  { index := some i, id := some idv, type := some "function",
    function := some { name := some nm, arguments := none } }

/-- An arguments-fragment delta for an index. -/
def argDelta (i : Nat) (s : String) : ToolCallDelta :=
  { index := some i, id := none, type := none,
    function := some { name := none, arguments := some s } }

/-- Appending an arguments fragment to an accumulated call. -/
def addArgs (c : ToolCallAcc) (s : String) : ToolCallAcc :=
  { c with arguments := c.arguments ++ s }

/-! ## Remote function gateway

Embeds `call_supabase_edge` (chat.py lines 476-551).  The HTTP transport is an
oracle `http : method → url → body → HttpOutcome α` where `α` is the type of a
decoded JSON payload; `HttpOutcome.timeout` models `requests.exceptions.Timeout`,
`HttpOutcome.requestError` models `requests.exceptions.RequestException`, and a
response carries the status code, the raw body text, and the decoded JSON when
`response.json()` succeeds (`none` models `json.JSONDecodeError`).  Headers and
the diagnostic printing are omitted: they do not affect the returned value. -/

/-- Outcome of one HTTP request made by the gateway. -/
inductive HttpOutcome (α : Type) where
  | timeout
  | requestError (msg : String)
  | response (status : Nat) (text : String) (json : Option α)

/-- The uniform result shape of the gateway, mirroring the four return sites of
`call_supabase_edge`: a decoded success, the raw text with a warning marker
(200 with a non-JSON body), or an error message with an optional status code. -/
inductive ToolResult (α : Type) where
  | success (value : α)
  | jsonWarning (data : String) (warning : String)
  | error (message : String) (statusCode : Option Nat)
deriving DecidableEq

/-- `SUPABASE_FUNCTIONS` (chat.py lines 16-43): tool name to endpoint path. -/
def SUPABASE_FUNCTIONS : List (String × String) :=
  [("getOrdersOverTime", "get-orders-over-time"),
   ("getOrdersByStatus", "get-orders-by-status"),
   ("fetchLatestOkendoReviews", "okendo-review-query"),
   ("getReviewsByRatingRange", "get-reviews-by-rating-range"),
   ("getReviewsByKeyword", "get-reviews-by-keyword"),
   ("getReviewsByDateRange", "get-reviews-by-date-range"),
   ("getReviewSummaryByProductName", "get-review-summary-by-product-name"),
   ("getSentimentSummary", "get-reviews-by-sentiment"),
   ("getOrderDetails", "get-order-details"),
   ("getTopProducts", "get-top-products"),
   ("getLineItemAggregates", "get-line-item-aggregates"),
   ("getDiscountUsage", "get-discount-usage"),
   ("getOrdersWithDiscounts", "get-orders-with-discounts"),
   ("getCustomers", "get-customers"),
   ("getInactiveCustomers", "get-inactive-customers"),
   ("getCustomerOrders", "get-customer-orders"),
   ("getPostPurchaseInsights", "analyze-post-purchase-feedback"),
   ("getCustomersStats", "get-customers-stats"),
   ("getTopCustomersRepeatFrequency", "get-top-customers-repeat-frequency"),
   ("orchestrator", "orchestrator"),
   ("getEventCounts", "get-event-counts"),
   ("getEmailEventRatios", "get-email-click-ratio"),
   ("getTopClickedUrls", "get-top-clicked-urls"),
   ("getCampaignReasoning", "campaign_reasoning"),
   ("getEventLogSlice", "get-event-log-slice")]

/-- `HTTP_METHODS` (chat.py lines 46-73): tool name to HTTP verb. -/
def HTTP_METHODS : List (String × String) :=
  [("getOrdersOverTime", "POST"),
   ("getOrdersByStatus", "POST"),
   ("fetchLatestOkendoReviews", "GET"),
   ("getReviewsByRatingRange", "GET"),
   ("getReviewsByKeyword", "GET"),
   ("getReviewsByDateRange", "POST"),
   ("getReviewSummaryByProductName", "GET"),
   ("getSentimentSummary", "POST"),
   ("getOrderDetails", "POST"),
   ("getTopProducts", "GET"),
   ("getLineItemAggregates", "POST"),
   ("getDiscountUsage", "POST"),
   ("getOrdersWithDiscounts", "GET"),
   ("getCustomers", "GET"),
   ("getInactiveCustomers", "GET"),
   ("getCustomerOrders", "GET"),
   ("getPostPurchaseInsights", "POST"),
   ("getCustomersStats", "POST"),
   ("getTopCustomersRepeatFrequency", "POST"),
   ("orchestrator", "POST"),
   ("getEventCounts", "POST"),
   ("getEmailEventRatios", "POST"),
   ("getTopClickedUrls", "POST"),
   ("getCampaignReasoning", "POST"),
   ("getEventLogSlice", "POST")]

/-- Models `urllib.parse.urlencode` on a parameter mapping (without percent
escaping, which no claim depends on). -/
def urlencodeModel : List (String × String) → String
  | [] => ""
  | [(k, v)] => k ++ "=" ++ v
  | (k, v) :: rest => k ++ "=" ++ v ++ "&" ++ urlencodeModel rest

/-- `call_supabase_edge(fn_name, args)` (chat.py lines 476-551).  The function
is total: every transport failure is returned as data, mirroring the
`try/except` blocks that catch `Timeout`, `RequestException` and `Exception`. -/
def call_supabase_edge {α : Type}
    (http : String → String → List (String × String) → HttpOutcome α)
    (baseUrl : String) (fn_name : String) (args : List (String × String)) :
    ToolResult α :=
  let mapped_name := ((SUPABASE_FUNCTIONS.lookup fn_name).getD fn_name)
  let url := baseUrl ++ "/" ++ mapped_name
  let http_method := ((HTTP_METHODS.lookup fn_name).getD "POST")
  let outcome :=
    if http_method = "GET" then
      http "GET"
        (if args.isEmpty then url else url ++ "?" ++ urlencodeModel args) []
    else
      http http_method url args
  match outcome with
  | HttpOutcome.timeout =>
      ToolResult.error "Request to Supabase function timed out" none
  | HttpOutcome.requestError m =>
      ToolResult.error ("Request to Supabase function failed: " ++ m) none
  | HttpOutcome.response status text json =>
      if status = 200 then
        match json with
        | some v => ToolResult.success v
        | none => ToolResult.jsonWarning text "Response was not valid JSON"
      else
        ToolResult.error
          ("Supabase function returned status " ++ toString status ++ ": " ++ text)
          (some status)

/-! ## Response formatter

Embeds `enhance_response_formatting` (chat.py lines 949-999) over `List Char`.
The Python function splits into lines, filters out debug/gateway lines,
rejoins, strips, applies seven `re.sub` substitutions, collapses runs of three
or more newlines to two, and strips again.

Each `re.sub` is embedded as a scanner with the same semantics as the Python
regex engine: scanning left to right, replacing non-overlapping matches and
resuming immediately after each replaced match (so the newline consumed at the
end of a match is not available to start the next match).  The line-anchored
patterns (header, bullet, conclusion-literal, arrow) are implemented over the
line decomposition; the emoji-bullet pattern, whose first character class can
cross newlines, and the newline-collapsing pattern are implemented over the
character list with an explicit step bound (the scanner consumes at least one
character per step, so a bound of the input length is never exhausted). -/

/-- The default Python `str.strip` whitespace characters (space, tab, newline,
carriage return, vertical tab, form feed). -/
def isPySpace (c : Char) : Bool :=
  c == ' ' || c == '\t' || c == '\n' || c == '\r' ||
  c == Char.ofNat 11 || c == Char.ofNat 12

/-- Python `text.split('\n')`: all pieces, empty pieces included. -/
def splitNl : List Char → List (List Char)
  | [] => [[]]
  | c :: cs =>
    if c = '\n' then [] :: splitNl cs
    else
      match splitNl cs with
      | [] => [[c]]
      | l :: ls => (c :: l) :: ls

/-- Python `'\n'.join(lines)`. -/
def joinNl : List (List Char) → List Char
  | [] => []
  | [l] => l
  | l :: ls => l ++ '\n' :: joinNl ls

/-- Leading-whitespace removal. -/
def dropLead (l : List Char) : List Char := l.dropWhile isPySpace

/-- Trailing-whitespace removal. -/
def dropTrail (l : List Char) : List Char := (l.reverse.dropWhile isPySpace).reverse

/-- Python `text.strip()`. -/
def stripChars (l : List Char) : List Char := dropTrail (dropLead l)

/-- Python substring containment `pat in s`. -/
def hasSub (pat : List Char) : List Char → Bool
  | [] => pat.isPrefixOf []
  | c :: cs => pat.isPrefixOf (c :: cs) || hasSub pat cs

/-- The per-line filter of chat.py lines 958-968: a line is dropped when its
stripped form starts with a debug marker, or when it mentions both
`Talked to` and `supabase.co`; every other line (blank lines included) is kept. -/
def keepLine (line : List Char) : Bool :=
  !(("> [debug]".data.isPrefixOf (stripChars line)) ||
    ("[debug]".data.isPrefixOf (stripChars line)) ||
    (hasSub "Talked to".data line && hasSub "supabase.co".data line))

/-- A line matched by the header pattern: two hash marks followed by at least
one further character (two-or-three hash marks then one-or-more non-newline
characters, which together must cover the whole line). -/
def isHeaderLine (line : List Char) : Bool :=
  ['#', '#'].isPrefixOf line && 3 ≤ line.length

/-- A line matched by the bullet pattern: a dash, a space, and at least one
further character. -/
def isBulletLine (line : List Char) : Bool :=
  ['-', ' '].isPrefixOf line && 3 ≤ line.length

/-- A line matched by the call-to-action pattern: the arrow emoji marker
followed by at least one character. -/
def isArrowLine (line : List Char) : Bool :=
  ":arrow_right: ".data.isPrefixOf line &&
  ":arrow_right: ".data.length < line.length

/-- Line-anchored substitution scanner.  A pattern of the shape
`newline (line) newline` matches a full line `next` that is neither the first
line nor the last; on a match the trailing newline is consumed, so the line
after a matched line can never itself be matched (the scanner resumes at
`rest`).  With `ins` the replacement surrounds the matched line with blank
lines (replacement `newline newline group newline newline`); without `ins` the
replacement is the match itself.  The first argument bounds the number of
steps; each step consumes at least one line, so `ls.length` suffices. -/
def lineSubF (isM : List Char → Bool) (ins : Bool) :
    Nat → List (List Char) → List (List Char)
  | 0, ls => ls
  | _ + 1, [] => []
  | _ + 1, [l] => [l]
  | fuel + 1, l :: next :: rest =>
    if isM next && !rest.isEmpty then
      if ins then l :: [] :: next :: [] :: lineSubF isM ins fuel rest
      else l :: next :: lineSubF isM ins fuel rest
    else l :: lineSubF isM ins fuel (next :: rest)

/-- A line-anchored substitution applied to a character list. -/
def lineSubstitution (isM : List Char → Bool) (ins : Bool) (s : List Char) :
    List Char :=
  joinNl (lineSubF isM ins (splitNl s).length (splitNl s))

/-- The header-spacing substitution (chat.py line 977). -/
def headerSub (s : List Char) : List Char := lineSubstitution isHeaderLine true s

/-- The bullet substitution (chat.py line 980); its replacement equals its
match, so it never changes the text. -/
def bulletSub (s : List Char) : List Char := lineSubstitution isBulletLine false s

/-- A literal-line spacing substitution (chat.py lines 986-988). -/
def literalLineSub (lit : List Char) (s : List Char) : List Char :=
  lineSubstitution (fun l => l == lit) true s

/-- The call-to-action spacing substitution (chat.py line 991). -/
def arrowSub (s : List Char) : List Char := lineSubstitution isArrowLine true s

/-- Split at the first occurrence of a character: the part before it (which
does not contain it) and the rest after it. -/
def splitAtChar (t : Char) : List Char → Option (List Char × List Char)
  | [] => none
  | c :: cs =>
    if c = t then some ([], cs)
    else (splitAtChar t cs).map (fun p => (c :: p.1, p.2))

/-- The emoji-bullet spacing substitution scanner (chat.py line 983): after a
newline, a dash, a space and a colon, the pattern takes the (non-empty)
characters up to the next colon — newlines included, since the character class
only excludes the colon — then requires a space, then at least one non-newline
character up to a newline.  The replacement appends one extra newline after the
match.  The first argument bounds the number of steps. -/
def emojiSubF : Nat → List Char → List Char
  | 0, s => s
  | _ + 1, [] => []
  | fuel + 1, c :: cs =>
    if c = '\n' then
      match cs with
      | '-' :: ' ' :: ':' :: rest =>
        match splitAtChar ':' rest with
        | none => '\n' :: emojiSubF fuel cs
        | some (mid, r1) =>
          if mid.isEmpty then '\n' :: emojiSubF fuel cs
          else
            match r1 with
            | ' ' :: r2 =>
              match splitAtChar '\n' r2 with
              | none => '\n' :: emojiSubF fuel cs
              | some (body, r3) =>
                if body.isEmpty then '\n' :: emojiSubF fuel cs
                else
                  '\n' :: '-' :: ' ' :: ':' ::
                    (mid ++ ':' :: ' ' :: body) ++ '\n' :: '\n' ::
                      emojiSubF fuel r3
            | _ => '\n' :: emojiSubF fuel cs
      | _ => '\n' :: emojiSubF fuel cs
    else c :: emojiSubF fuel cs

/-- The emoji-bullet spacing substitution. -/
def emojiSub (s : List Char) : List Char := emojiSubF s.length s

/-- The newline-collapsing substitution scanner (chat.py line 994): a maximal
run of three or more newlines becomes exactly two; shorter runs are kept.  The
first argument bounds the number of steps. -/
def collapseNlF : Nat → List Char → List Char
  | 0, s => s
  | _ + 1, [] => []
  | fuel + 1, c :: cs =>
    if c = '\n' then
      let run := 1 + (cs.takeWhile (fun x => x == '\n')).length
      let rest := cs.dropWhile (fun x => x == '\n')
      (if 3 ≤ run then ['\n', '\n'] else List.replicate run '\n') ++
        collapseNlF fuel rest
    else c :: collapseNlF fuel cs

/-- The newline-collapsing substitution. -/
def collapseNl (s : List Char) : List Char := collapseNlF s.length s

/-- `enhance_response_formatting(response)` (chat.py lines 949-999): filter
debug/gateway lines, strip, apply the spacing substitutions in source order,
collapse newline runs, and strip again.  An empty input is returned unchanged
(Python: `if not response: return response`). -/
def enhance_response_formatting (response : List Char) : List Char :=
  if response.isEmpty then response
  else
    let cleaned := stripChars (joinNl ((splitNl response).filter keepLine))
    let r1 := headerSub cleaned
    let r2 := bulletSub r1
    let r3 := emojiSub r2
    let r4 := literalLineSub "### Conclusion".data r3
    let r5 := literalLineSub "### Key Observations".data r4
    let r6 := literalLineSub "### Sentiment Summary".data r5
    let r7 := arrowSub r6
    stripChars (collapseNl r7)

/-- The formatter lifted to `String`. -/
def enhanceStr (s : String) : String :=
  String.mk (enhance_response_formatting s.data)

/-- Whether a character list contains a run of three consecutive newlines
(the left-hand side of the newline-collapsing substitution). -/
def hasTriple : List Char → Bool
  | [] => false
  | c :: cs => (c == '\n' && ['\n', '\n'].isPrefixOf cs) || hasTriple cs

/-- The line-filtering and trimming core of the formatter: drop debug and
gateway-host lines, rejoin, and strip — the text to which the spacing
substitutions are then applied. -/
def filteredCore (x : List Char) : List Char :=
  stripChars (joinNl ((splitNl x).filter keepLine))

/-! ## Streaming orchestration loop

Embeds `handle_openai_streaming_response` (chat.py lines 343-472), its wrapper
`call_openai_streaming` (lines 187-341) and `save_message` (lines 553-566).

The first model stream is a list of chunks, each carrying a (possibly empty)
list of choices whose head delta may hold tool-call deltas or a content
fragment; an exception raised by the stream while iterating is modelled by an
optional error message taking effect after the listed chunks.  The second
model invocation is `Except`: either its creation/iteration fails, or it
yields a list of content fragments followed by an optional iteration error.
`json.loads` is an oracle `parse` returning `Except` (an `error` models the
exception), and the execution plus `json.dumps` of one remote call is an
oracle `exec` returning `Except` (an `error` models an exception raised while
executing one tool).  The message store is an oracle `saveOk` telling whether
one insert succeeds; `save_message` swallows a failed insert. -/

/-- One streamed delta of the first round. -/
structure Delta where
  content : Option String
  tool_calls : Option (List ToolCallDelta)

/-- One chunk: its (possibly empty) list of choice deltas; only the head is
read (`chunk.choices[0].delta`), and a chunk without choices is skipped. -/
def Chunk : Type := List Delta

/-- A caller-visible streaming event, one per `yield` of the loop. -/
inductive StreamEvent where
  | content (s : String)
  | toolCalls (s : String)
  | toolExecution (s : String)
  | finalResponse (s : String)
  | error (s : String)
deriving DecidableEq

/-- A conversation message as appended to the in-memory `messages` list. -/
structure ChatMsg where
  role : String
  content : String
  tool_call_id : Option String
  tool_calls : Option (List ToolCallAcc)
deriving DecidableEq

/-- State of the first-round chunk loop: accumulated content, accumulated tool
calls, and the events yielded so far. -/
structure FirstState where
  acc : String
  calls : List ToolCallAcc
  evs : List StreamEvent
deriving DecidableEq

/-- The `elif delta.content:` branch (chat.py lines 383-388): a truthy content
fragment is accumulated and yielded as a `content` event. -/
def stepContent (st : FirstState) (d : Delta) : FirstState :=
  match d.content with
  | some s => if s = "" then st else ⟨st.acc ++ s, st.calls, st.evs ++ [StreamEvent.content s]⟩
  | none => st

/-- One chunk of the first round (chat.py lines 352-388): a chunk without
choices is skipped; a truthy `delta.tool_calls` list is folded into the
accumulator, otherwise the content branch runs. -/
def stepChunk (st : FirstState) (ch : Chunk) : FirstState :=
  match ch with
  | [] => st
  | d :: _ =>
    match d.tool_calls with
    | some ds =>
      if ds.isEmpty then stepContent st d
      else ⟨st.acc, ds.foldl applyToolCallDelta st.calls, st.evs⟩
    | none => stepContent st d

/-- The whole first-round loop, from the empty state. -/
def processFirst (chunks : List Chunk) : FirstState :=
  chunks.foldl stepChunk ⟨"", [], []⟩

/-- `tool_calls and any(tc.get("function", \x7b\x7d).get("name") ...)`
(chat.py line 391). -/
def hasNamedCall (calls : List ToolCallAcc) : Bool :=
  !calls.isEmpty && calls.any (fun tc => tc.name ≠ "")

/-- The assistant message carrying the tool-call request
(chat.py lines 395-399). -/
def assistantToolMsg (acc : String) (calls : List ToolCallAcc) : ChatMsg :=
  ⟨"assistant", acc, none, some calls⟩

/-- `json.dumps(\x7b"error": f"Tool execution failed: ..."\x7d)`
(chat.py line 421). -/
def toolExecErrContent (emsg : String) : String :=
  "\x7b\"error\": \"Tool execution failed: " ++ emsg ++ "\"\x7d"

/-- `tool_call["function"]["arguments"] or "\x7b\x7d"` (chat.py line 405): an
empty argument payload is replaced by the empty JSON object before parsing. -/
def toolPayload (tc : ToolCallAcc) : String :=
  if tc.arguments = "" then "\x7b\x7d" else tc.arguments

/-- One iteration of the tool-execution loop with its `try/except`
(chat.py lines 402-426): the tool message appended for this call and the
events yielded during the iteration.  When `json.loads` raises, no
`tool_execution` event was yielded yet; the exception is caught and an
error-shaped tool result is appended, correlated to the call id.  When the
execution itself raises, the event was already yielded and the error-shaped
result is appended.  Either way the conversation gains exactly one tool-role
message for this call. -/
def runToolCall {A : Type} (parse : String → Except String A)
    (exec : String → A → Except String String) (tc : ToolCallAcc) :
    ChatMsg × List StreamEvent :=
  match parse (toolPayload tc) with
  | Except.error e =>
      (⟨"tool", toolExecErrContent e, some tc.id, none⟩, [])
  | Except.ok args =>
    match exec tc.name args with
    | Except.error e =>
        (⟨"tool", toolExecErrContent e, some tc.id, none⟩,
         [StreamEvent.toolExecution ("Executing " ++ tc.name ++ "...")])
    | Except.ok dumped =>
        (⟨"tool", dumped, some tc.id, none⟩,
         [StreamEvent.toolExecution ("Executing " ++ tc.name ++ "...")])

/-- Whether the argument payload of a call parses as JSON. -/
def parseOk {A : Type} (parse : String → Except String A)
    (tc : ToolCallAcc) : Bool :=
  match parse (toolPayload tc) with
  | Except.ok _ => true
  | Except.error _ => false

/-- The content events of the second round (chat.py lines 440-447): one per
truthy content fragment. -/
def secondEvents (chunks2 : List String) : List StreamEvent :=
  (chunks2.filter (fun s => s ≠ "")).map StreamEvent.content

/-- The accumulated `final_content` of the second round. -/
def secondText (chunks2 : List String) : String :=
  strConcat (chunks2.filter (fun s => s ≠ ""))

/-- Python `str.strip` on a `String`. -/
def pyStrip (s : String) : String := String.mk (stripChars s.data)

/-- `save_message` (chat.py lines 553-566): empty or blank content is replaced
by a placeholder; a failing insert is swallowed (the error is only logged), so
the store is unchanged and no exception propagates. -/
def save_message (saveOk : String → String → Bool)
    (saved : List (String × String)) (role content : String) :
    List (String × String) :=
  let c := if content = "" ∨ pyStrip content = "" then "Empty message" else content
  if saveOk role c then saved ++ [(role, c)] else saved

/-- The error message built by the handler-level `except` (chat.py line 467). -/
def streamErrMsg (e : String) : String :=
  "Error handling streaming response: " ++ e

/-- Result of one run of the streaming handler: the events yielded to the
caller, the messages persisted to the store (in order), and the final
in-memory conversation list. -/
structure HandleResult where
  events : List StreamEvent
  saved : List (String × String)
  messages : List ChatMsg
deriving DecidableEq

/-- `handle_openai_streaming_response(stream, session_id, messages)`
(chat.py lines 343-472).  `chunks`/`firstErr` model the first stream (chunks
iterated, then an optional exception); `fstream` models the second invocation:
`Except.error` is an exception creating or iterating `final_stream`, and
`Except.ok (chunks2, err2)` its content fragments followed by an optional
iteration exception.  Any exception is caught by the handler-level `except`:
the error text is persisted as the assistant turn and a terminal `error` event
is yielded.  With tool calls, the assistant tool-call request and one tool
message per call are appended to the conversation, progress events are
yielded, and the second round is streamed; non-empty final content is
formatted and persisted, while empty final content persists nothing. -/
def handle_openai_streaming_response {A : Type}
    (parse : String → Except String A)
    (exec : String → A → Except String String)
    (saveOk : String → String → Bool)
    (chunks : List Chunk) (firstErr : Option String)
    (fstream : Except String (List String × Option String))
    (messages0 : List ChatMsg) : HandleResult :=
  let st := processFirst chunks
  match firstErr with
  | some e =>
      ⟨st.evs ++ [StreamEvent.error (streamErrMsg e)],
       save_message saveOk [] "assistant" (streamErrMsg e), messages0⟩
  | none =>
    if hasNamedCall st.calls then
      let results := st.calls.map (runToolCall parse exec)
      let msgs2 := messages0 ++ [assistantToolMsg st.acc st.calls]
                     ++ results.map Prod.fst
      let evPre := st.evs ++ [StreamEvent.toolCalls "Processing your request..."]
                     ++ (results.map Prod.snd).join
                     ++ [StreamEvent.finalResponse "Generating final response..."]
      match fstream with
      | Except.error e =>
          ⟨evPre ++ [StreamEvent.error (streamErrMsg e)],
           save_message saveOk [] "assistant" (streamErrMsg e), msgs2⟩
      | Except.ok (chunks2, err2) =>
        match err2 with
        | some e =>
            ⟨evPre ++ secondEvents chunks2 ++ [StreamEvent.error (streamErrMsg e)],
             save_message saveOk [] "assistant" (streamErrMsg e), msgs2⟩
        | none =>
          if secondText chunks2 = "" then
            ⟨evPre ++ secondEvents chunks2, [], msgs2⟩
          else
            ⟨evPre ++ secondEvents chunks2,
             save_message saveOk [] "assistant" (enhanceStr (secondText chunks2)),
             msgs2⟩
    else
      if st.acc = "" then ⟨st.evs, [], messages0⟩
      else ⟨st.evs, save_message saveOk [] "assistant" (enhanceStr st.acc),
            messages0⟩

/-- The outcome of the first `client.chat.completions.create` call in
`call_openai_streaming`: either its creation raises, or it yields a stream. -/
inductive ModelOutcome where
  | createError (msg : String)
  | stream (chunks : List Chunk) (firstErr : Option String)
      (fstream : Except String (List String × Option String))

/-- The conversation assembled by `call_openai_streaming`
(chat.py lines 206-317): the system message, the stored history, the date
anchor and the new user message.  The prompt texts are parameters since no
claim depends on their contents. -/
def assembleMessages (systemContent dateContext userMessage : String)
    (history : List (String × String)) : List ChatMsg :=
  ⟨"system", systemContent, none, none⟩ ::
    (history.map (fun p => (⟨p.1, p.2, none, none⟩ : ChatMsg)) ++
      [⟨"user", dateContext, none, none⟩, ⟨"user", userMessage, none, none⟩])

/-- Result of one chat request processed by `call_openai_streaming`. -/
structure RunResult where
  events : List StreamEvent
  saved : List (String × String)
deriving DecidableEq

/-- `call_openai_streaming(user_message, tools, session_id, user_id)`
(chat.py lines 187-341): the history is loaded (an oracle input here, since
`get_history` swallows its own errors), the conversation is assembled, the new
user message is persisted, and the model is invoked; an exception from the
invocation itself is caught by the top-level `except`, persisted as the
assistant turn and yielded as a terminal `error` event.  Title generation only
touches the session record and never raises, so it is omitted. -/
def call_openai_streaming {A : Type}
    (parse : String → Except String A)
    (exec : String → A → Except String String)
    (saveOk : String → String → Bool)
    (systemContent dateContext : String)
    (history : List (String × String)) (userMessage : String)
    (outcome : ModelOutcome) : RunResult :=
  let messages0 := assembleMessages systemContent dateContext userMessage history
  let saved1 := save_message saveOk [] "user" userMessage
  match outcome with
  | ModelOutcome.createError e =>
      let m := "Error in call_openai_streaming: " ++ e
      ⟨[StreamEvent.error m], save_message saveOk saved1 "assistant" m⟩
  | ModelOutcome.stream chunks firstErr fstream =>
      let h := handle_openai_streaming_response parse exec saveOk chunks
                 firstErr fstream messages0
      ⟨h.events, saved1 ++ h.saved⟩

/-- The number of assistant messages in a list of persisted messages. -/
def countAssistant (saved : List (String × String)) : Nat :=
  (saved.filter (fun p => p.1 == "assistant")).length

/-- Whether an event is a terminal `error` event. -/
def isErrorEvent : StreamEvent → Bool
  | StreamEvent.error _ => true
  | _ => false

/-- Whether an event is a `content` token event. -/
def isContentEvent : StreamEvent → Bool
  | StreamEvent.content _ => true
  | _ => false

/-- Whether a run yielded a terminal `error` event. -/
def hasErrorEvent (evs : List StreamEvent) : Bool :=
  evs.any isErrorEvent

/-! ### Lemmas about the accumulator -/

theorem getD_replicate_self {α : Type} (n j : Nat) (e : α) :
    (List.replicate n e).getD j e = e := by
  induction n generalizing j with
  | zero => simp [List.getD]
  | succ n ih =>
    cases j with
    | zero => simp [List.replicate]
    | succ j => simpa [List.replicate] using ih j

theorem getD_append_replicate_self {α : Type} (l : List α) (n j : Nat) (e : α) :
    (l ++ List.replicate n e).getD j e = l.getD j e := by
  induction l generalizing j with
  | nil => simpa using getD_replicate_self n j e
  | cons a l ih =>
    cases j with
    | zero => rfl
    | succ j => simpa using ih j

theorem getD_padToolCalls (calls : List ToolCallAcc) (i j : Nat) :
    (padToolCalls calls i).getD j emptyToolCall = calls.getD j emptyToolCall :=
  getD_append_replicate_self calls _ j emptyToolCall

theorem length_padToolCalls (calls : List ToolCallAcc) (i : Nat) :
    (padToolCalls calls i).length = max calls.length (i + 1) := by
  simp only [padToolCalls, List.length_append, List.length_replicate]
  omega

theorem getD_set_self {α : Type} (l : List α) (i : Nat) (x e : α)
    (h : i < l.length) : (l.set i x).getD i e = x := by
  induction l generalizing i with
  | nil => simp at h
  | cons a l ih =>
    cases i with
    | zero => rfl
    | succ i => simpa using ih i (by simpa using h)

theorem getD_set_ne {α : Type} (l : List α) (i j : Nat) (x e : α)
    (h : i ≠ j) : (l.set i x).getD j e = l.getD j e := by
  induction l generalizing i j with
  | nil => simp
  | cons a l ih =>
    cases i with
    | zero =>
      cases j with
      | zero => exact absurd rfl h
      | succ j => rfl
    | succ i =>
      cases j with
      | zero => rfl
      | succ j => simpa using ih i j (by omega)

theorem set_getD_self {α : Type} (l : List α) (i : Nat) (e : α)
    (h : i < l.length) : l.set i (l.getD i e) = l := by
  induction l generalizing i with
  | nil => simp at h
  | cons a l ih =>
    cases i with
    | zero => rfl
    | succ i => simpa using ih i (by simpa using h)

theorem applyToolCallDelta_getD (calls : List ToolCallAcc) (d : ToolCallDelta)
    (j : Nat) :
    (applyToolCallDelta calls d).getD j emptyToolCall =
      if d.index = some j then
        updateToolCall (calls.getD j emptyToolCall) d
      else calls.getD j emptyToolCall := by
  rcases hd : d.index with _ | i
  · simp only [applyToolCallDelta, hd]
    rw [if_neg (by simp [hd])]
  · have h1 : applyToolCallDelta calls d =
        (padToolCalls calls i).set i
          (updateToolCall ((padToolCalls calls i).getD i emptyToolCall) d) := by
      simp only [applyToolCallDelta, hd]
    by_cases hij : i = j
    · subst hij
      have hlt : i < (padToolCalls calls i).length := by
        rw [length_padToolCalls]; omega
      rw [h1, getD_set_self _ _ _ _ hlt, getD_padToolCalls, if_pos rfl]
    · rw [h1, getD_set_ne _ i j _ _ hij, getD_padToolCalls,
        if_neg (by simp [hij])]

theorem accumulateToolCalls_getD (ds : List ToolCallDelta)
    (calls : List ToolCallAcc) (j : Nat) :
    (accumulateToolCalls calls ds).getD j emptyToolCall =
      (ds.filter (fun d => d.index == some j)).foldl updateToolCall
        (calls.getD j emptyToolCall) := by
  induction ds generalizing calls with
  | nil => rfl
  | cons d ds ih =>
    by_cases h : d.index = some j
    · have hb : (d.index == some j) = true := by simp [h]
      simp only [accumulateToolCalls, List.foldl_cons, List.filter_cons, hb,
        if_true]
      rw [show (ds.foldl applyToolCallDelta (applyToolCallDelta calls d)) =
            accumulateToolCalls (applyToolCallDelta calls d) ds from rfl,
        ih, applyToolCallDelta_getD, if_pos h]
    · have hb : (d.index == some j) = false := by simpa using h
      simp only [accumulateToolCalls, List.foldl_cons, List.filter_cons, hb,
        Bool.false_eq_true, if_false]
      rw [show (ds.foldl applyToolCallDelta (applyToolCallDelta calls d)) =
            accumulateToolCalls (applyToolCallDelta calls d) ds from rfl,
        ih, applyToolCallDelta_getD, if_neg h]

theorem updateToolCall_id (c : ToolCallAcc) (d : ToolCallDelta) :
    (updateToolCall c d).id = if optTruthy d.id then d.id.getD "" else c.id := by
  rcases d with ⟨i, idv, tyv, fv⟩
  rcases fv with _ | ⟨nm, ar⟩ <;>
    simp only [updateToolCall] <;>
    split_ifs <;> simp_all

theorem updateToolCall_name (c : ToolCallAcc) (d : ToolCallDelta) :
    (updateToolCall c d).name =
      match d.function with
      | some f => if optTruthy f.name then f.name.getD "" else c.name
      | none => c.name := by
  rcases d with ⟨i, idv, tyv, fv⟩
  rcases fv with _ | ⟨nm, ar⟩ <;>
    simp only [updateToolCall] <;>
    split_ifs <;> simp_all

theorem updateToolCall_arguments (c : ToolCallAcc) (d : ToolCallDelta) :
    (updateToolCall c d).arguments =
      c.arguments ++
        (match d.function with
         | some f => if optTruthy f.arguments then f.arguments.getD "" else ""
         | none => "") := by
  rcases d with ⟨i, idv, tyv, fv⟩
  rcases fv with _ | ⟨nm, ar⟩ <;>
    simp only [updateToolCall] <;>
    split_ifs <;> simp_all

theorem foldl_updateToolCall_id (fs : List ToolCallDelta) (c : ToolCallAcc) :
    (fs.foldl updateToolCall c).id =
      lastKeepD c.id (fs.filterMap ToolCallDelta.id) := by
  induction fs generalizing c with
  | nil => rfl
  | cons f fs ih =>
    rw [List.foldl_cons, ih, List.filterMap_cons]
    rcases hid : f.id with _ | s
    · rw [updateToolCall_id, hid]; rfl
    · rw [updateToolCall_id, hid]
      by_cases hs : s = ""
    <;> simp [lastKeepD, optTruthy, hs]

theorem foldl_updateToolCall_name (fs : List ToolCallDelta) (c : ToolCallAcc) :
    (fs.foldl updateToolCall c).name =
      lastKeepD c.name (fs.filterMap (fun d => d.function.bind FuncDelta.name)) := by
  induction fs generalizing c with
  | nil => rfl
  | cons f fs ih =>
    rw [List.foldl_cons, ih, List.filterMap_cons]
    rcases hfv : f.function with _ | ⟨nm, ar⟩
    · rw [updateToolCall_name, hfv]; rfl
    · rcases nm with _ | s
      · rw [updateToolCall_name, hfv]
        simp [optTruthy]
      · rw [updateToolCall_name, hfv]
        by_cases hs : s = ""
      <;> simp [lastKeepD, optTruthy, hs]

theorem foldl_updateToolCall_arguments (fs : List ToolCallDelta) (c : ToolCallAcc) :
    (fs.foldl updateToolCall c).arguments =
      c.arguments ++
        strConcat (fs.filterMap (fun d => d.function.bind FuncDelta.arguments)) := by
  induction fs generalizing c with
  | nil => simp [strConcat]
  | cons f fs ih =>
    rw [List.foldl_cons, ih, List.filterMap_cons]
    rcases hfv : f.function with _ | ⟨nm, ar⟩
    · rw [updateToolCall_arguments, hfv]
      simp
    · rcases ar with _ | s
      · rw [updateToolCall_arguments, hfv]
        simp [optTruthy]
      · rw [updateToolCall_arguments, hfv]
        by_cases hs : s = "" <;>
          simp [strConcat, optTruthy, hs, String.append_assoc]

theorem filterMap_of_filter {α β : Type} (p : α → Bool) (f : α → Option β)
    (l : List α) :
    (l.filter p).filterMap f = l.filterMap (fun a => if p a then f a else none) := by
  induction l with
  | nil => rfl
  | cons a l ih =>
    by_cases h : p a = true <;>
      simp [List.filter_cons, List.filterMap_cons, h, ih]

/-! ### Lemmas used for the out-of-order reconstruction property -/

theorem padToolCalls_of_lt (calls : List ToolCallAcc) (i : Nat)
    (h : i < calls.length) : padToolCalls calls i = calls := by
  have : i + 1 - calls.length = 0 := by omega
  simp [padToolCalls, this]

theorem addArgs_empty (c : ToolCallAcc) : addArgs c "" = c := by
  simp [addArgs]

theorem addArgs_addArgs (c : ToolCallAcc) (a b : String) :
    addArgs (addArgs c a) b = addArgs c (a ++ b) := by
  simp [addArgs, String.append_assoc]

theorem applyToolCallDelta_argDelta (calls : List ToolCallAcc) (i : Nat)
    (s : String) (h : i < calls.length) :
    applyToolCallDelta calls (argDelta i s) =
      calls.set i (addArgs (calls.getD i emptyToolCall) s) := by
  simp only [applyToolCallDelta, argDelta, padToolCalls_of_lt calls i h]
  congr 1
  by_cases hs : s = ""
  · subst hs
    simp [updateToolCall, optTruthy, addArgs_empty]
  · simp [updateToolCall, optTruthy, hs, addArgs]

theorem foldl_argDeltas (i : Nat) (frags : List String) :
    ∀ calls : List ToolCallAcc, i < calls.length →
      List.foldl applyToolCallDelta calls (frags.map (argDelta i)) =
        calls.set i (addArgs (calls.getD i emptyToolCall) (strConcat frags)) := by
  induction frags with
  | nil =>
    intro calls h
    simp only [List.map_nil, List.foldl_nil, strConcat, addArgs_empty]
    rw [set_getD_self _ _ _ h]
  | cons a frags ih =>
    intro calls h
    rw [List.map_cons, List.foldl_cons, applyToolCallDelta_argDelta calls i a h,
      ih _ (by simpa using h), getD_set_self _ _ _ _ h, List.set_set,
      addArgs_addArgs]
    rfl

/-- C5: the tool-call accumulator is insensitive to delta arrival order and
argument fragmentation.  First conjunct: feeding the complete deltas of call 1
(head delta followed by arbitrarily split argument fragments) before those of
call 0 reconstructs the same two complete calls as feeding call 0 then call 1
with unsplit arguments.  Second conjunct: a delta whose index is `i` leaves the
list padded up to and including position `i` (length `max (length calls) (i+1)`),
so an index beyond the current length pads with placeholder calls. -/
theorem accumulator_order_insensitive :
    (∀ (id0 nm0 id1 nm1 : String) (frags0 frags1 : List String),
      accumulateToolCalls []
        ([headDelta 1 id1 nm1] ++ frags1.map (argDelta 1)
          ++ [headDelta 0 id0 nm0] ++ frags0.map (argDelta 0)) =
      accumulateToolCalls []
        [headDelta 0 id0 nm0, argDelta 0 (strConcat frags0),
         headDelta 1 id1 nm1, argDelta 1 (strConcat frags1)]) ∧
    (∀ (calls : List ToolCallAcc) (i : Nat) (a b : Option String)
        (f : Option FuncDelta),
      (applyToolCallDelta calls
          { index := some i, id := a, type := b, function := f }).length
        = max calls.length (i + 1)) := by
  constructor
  · intro id0 nm0 id1 nm1 frags0 frags1
    show List.foldl applyToolCallDelta [] _ = List.foldl applyToolCallDelta [] _
    rw [List.foldl_append, List.foldl_append, List.foldl_append]
    have s1 : List.foldl applyToolCallDelta [] [headDelta 1 id1 nm1] =
        [emptyToolCall, updateToolCall emptyToolCall (headDelta 1 id1 nm1)] := rfl
    rw [s1, foldl_argDeltas 1 frags1 _ (by simp)]
    have s2 : ∀ x : ToolCallAcc,
        ([emptyToolCall, x].set 1
          (addArgs ([emptyToolCall, x].getD 1 emptyToolCall) (strConcat frags1)))
          = [emptyToolCall, addArgs x (strConcat frags1)] := fun _ => rfl
    rw [s2]
    have s3 : ∀ x : ToolCallAcc,
        List.foldl applyToolCallDelta [emptyToolCall, x] [headDelta 0 id0 nm0] =
          [updateToolCall emptyToolCall (headDelta 0 id0 nm0), x] := fun _ => rfl
    rw [s3, foldl_argDeltas 0 frags0 _ (by simp)]
    have s4 : ∀ x y : ToolCallAcc,
        ([x, y].set 0 (addArgs ([x, y].getD 0 emptyToolCall) (strConcat frags0)))
          = [addArgs x (strConcat frags0), y] := fun _ _ => rfl
    rw [s4]
    rw [List.foldl_cons, List.foldl_cons, List.foldl_cons, List.foldl_cons,
      List.foldl_nil]
    have t1 : applyToolCallDelta [] (headDelta 0 id0 nm0) =
        [updateToolCall emptyToolCall (headDelta 0 id0 nm0)] := rfl
    rw [t1, applyToolCallDelta_argDelta _ 0 _ (by simp)]
    have t2 : ∀ x : ToolCallAcc,
        ([x].set 0 (addArgs ([x].getD 0 emptyToolCall) (strConcat frags0)))
          = [addArgs x (strConcat frags0)] := fun _ => rfl
    rw [t2]
    have t3 : ∀ y : ToolCallAcc,
        applyToolCallDelta [y] (headDelta 1 id1 nm1) =
          [y, updateToolCall emptyToolCall (headDelta 1 id1 nm1)] := fun _ => rfl
    rw [t3, applyToolCallDelta_argDelta _ 1 _ (by simp)]
    have t4 : ∀ x y : ToolCallAcc,
        ([x, y].set 1 (addArgs ([x, y].getD 1 emptyToolCall) (strConcat frags1)))
          = [x, addArgs y (strConcat frags1)] := fun _ _ => rfl
    rw [t4]
  · intro calls i a b f
    show ((padToolCalls calls i).set i _).length = _
    rw [List.length_set, length_padToolCalls]

/-- C10 (counterexample): when two deltas for the same index both carry a
non-empty id, the accumulator keeps the LAST one, not the first: the first
non-empty id arrival is `"call_a"` but the accumulated id is `"call_b"`. -/
theorem accumulator_id_not_first_arrival :
    firstNonEmpty (idFragsAt 0
      [{ index := some 0, id := some "call_a", type := none, function := none },
       { index := some 0, id := some "call_b", type := none, function := none }])
      = "call_a" ∧
    ((accumulateToolCalls []
      [{ index := some 0, id := some "call_a", type := none, function := none },
       { index := some 0, id := some "call_b", type := none, function := none }]).getD
        0 emptyToolCall).id = "call_b" ∧
    "call_b" ≠ "call_a" := by
  refine ⟨rfl, rfl, by decide⟩

/-- C10 (amended): for every delta sequence and index, the accumulated id and
function name equal the LAST non-empty arrival for that index (each non-empty
arrival overwrites the previous value; values are never concatenated), and the
accumulated argument text is the concatenation, in arrival order, of all
argument fragments carrying that index. -/
theorem accumulator_field_characterization (ds : List ToolCallDelta) (j : Nat) :
    ((accumulateToolCalls [] ds).getD j emptyToolCall).id
        = lastKeepD "" (idFragsAt j ds) ∧
    ((accumulateToolCalls [] ds).getD j emptyToolCall).name
        = lastKeepD "" (nameFragsAt j ds) ∧
    ((accumulateToolCalls [] ds).getD j emptyToolCall).arguments
        = strConcat (argFragsAt j ds) := by
  have hnil : ([] : List ToolCallAcc).getD j emptyToolCall = emptyToolCall := rfl
  refine ⟨?_, ?_, ?_⟩
  · rw [accumulateToolCalls_getD, hnil, foldl_updateToolCall_id,
      filterMap_of_filter]
    show _ = lastKeepD "" (idFragsAt j ds)
    simp only [idFragsAt, beq_iff_eq]
    rfl
  · rw [accumulateToolCalls_getD, hnil, foldl_updateToolCall_name,
      filterMap_of_filter]
    show _ = lastKeepD "" (nameFragsAt j ds)
    simp only [nameFragsAt, beq_iff_eq]
    rfl
  · rw [accumulateToolCalls_getD, hnil, foldl_updateToolCall_arguments,
      filterMap_of_filter]
    show ("" : String) ++ _ = strConcat (argFragsAt j ds)
    rw [String.empty_append]
    simp only [argFragsAt, beq_iff_eq]

/-- C2: for every function name and argument mapping the gateway returns a
`ToolResult` and never raises: a timeout and any transport failure yield an
error result; a non-200 status yields an error result embedding the status
code and response body; a 200 response with an undecodable body yields the raw
text wrapped with a warning marker; a 200 response with a decoded body yields
it as a success. -/
theorem gateway_total_error_handling {α : Type} (baseUrl fn_name : String)
    (args : List (String × String)) :
    (call_supabase_edge (α := α) (fun _ _ _ => HttpOutcome.timeout)
        baseUrl fn_name args
      = ToolResult.error "Request to Supabase function timed out" none) ∧
    (∀ m : String,
      call_supabase_edge (α := α) (fun _ _ _ => HttpOutcome.requestError m)
          baseUrl fn_name args
        = ToolResult.error ("Request to Supabase function failed: " ++ m) none) ∧
    (∀ (status : Nat) (text : String), status ≠ 200 →
      call_supabase_edge (α := α)
          (fun _ _ _ => HttpOutcome.response status text none)
          baseUrl fn_name args
        = ToolResult.error
            ("Supabase function returned status " ++ toString status ++ ": " ++ text)
            (some status)) ∧
    (∀ text : String,
      call_supabase_edge (α := α)
          (fun _ _ _ => HttpOutcome.response 200 text none)
          baseUrl fn_name args
        = ToolResult.jsonWarning text "Response was not valid JSON") ∧
    (∀ (v : α) (text : String),
      call_supabase_edge
          (fun _ _ _ => HttpOutcome.response 200 text (some v))
          baseUrl fn_name args
        = ToolResult.success v) := by
  refine ⟨?_, ?_, ?_, ?_, ?_⟩
  · simp only [call_supabase_edge, ite_self]
  · intro m
    simp only [call_supabase_edge, ite_self]
  · intro status text h
    simp only [call_supabase_edge, ite_self]
    show (if status = 200 then _ else _) = _
    rw [if_neg h]
  · intro text
    simp only [call_supabase_edge, ite_self]
    rw [if_pos trivial]
  · intro v text
    simp only [call_supabase_edge, ite_self]
    rw [if_pos trivial]

/-- C2 (witness): a simulated 500 response on a concrete call yields the
error-marked result embedding the status code and body. -/
theorem gateway_total_error_handling_witness :
    call_supabase_edge (α := Unit)
        (fun _ _ _ => HttpOutcome.response 500 "boom" none)
        "https://example.supabase.co/functions/v1" "getCustomers" []
      = ToolResult.error ("Supabase function returned status 500: boom")
          (some 500) :=
  (gateway_total_error_handling (α := Unit)
    "https://example.supabase.co/functions/v1" "getCustomers" []).2.2.1
    500 "boom" (by decide)

/-! ### Lemmas about the response formatter -/

theorem splitNl_ne_nil (s : List Char) : splitNl s ≠ [] := by
  cases s with
  | nil => simp [splitNl]
  | cons c cs =>
    by_cases hc : c = '\n'
    · simp [splitNl, hc]
    · simp only [splitNl, if_neg hc]
      rcases h : splitNl cs with _ | ⟨l, ls⟩ <;> simp

theorem joinNl_cons_of_ne_nil (a : List Char) (L : List (List Char))
    (h : L ≠ []) : joinNl (a :: L) = a ++ '\n' :: joinNl L := by
  cases L with
  | nil => exact absurd rfl h
  | cons l ls => rfl

theorem joinNl_splitNl (s : List Char) : joinNl (splitNl s) = s := by
  induction s with
  | nil => rfl
  | cons c cs ih =>
    by_cases hc : c = '\n'
    · subst hc
      show joinNl ([] :: splitNl cs) = '\n' :: cs
      rw [joinNl_cons_of_ne_nil _ _ (splitNl_ne_nil cs), ih]
      rfl
    · simp only [splitNl, if_neg hc]
      rcases h : splitNl cs with _ | ⟨l, ls⟩
      · exact absurd h (splitNl_ne_nil cs)
      · rw [h] at ih
        cases ls with
        | nil =>
          show (c :: l) = c :: cs
          simpa using ih
        | cons m ms =>
          show (c :: l) ++ '\n' :: joinNl (m :: ms) = c :: cs
          rw [List.cons_append]
          rw [joinNl_cons_of_ne_nil _ _ (by simp)] at ih
          simpa using ih

theorem dropWhile_dropWhile {α : Type} (p : α → Bool) (l : List α) :
    (l.dropWhile p).dropWhile p = l.dropWhile p := by
  induction l with
  | nil => rfl
  | cons a l ih =>
    by_cases h : p a = true
    · simp only [List.dropWhile_cons, h, if_true]
      exact ih
    · simp only [List.dropWhile_cons, h]
      simp only [Bool.false_eq_true, if_false] at *
      simp [List.dropWhile_cons, h]

theorem dropWhile_suffix_decomp {α : Type} (p : α → Bool) (l : List α) :
    ∃ v, l = v ++ l.dropWhile p := by
  induction l with
  | nil => exact ⟨[], rfl⟩
  | cons a l ih =>
    by_cases h : p a = true
    · obtain ⟨v, hv⟩ := ih
      exact ⟨a :: v, by simp [List.dropWhile_cons, h, ← hv]⟩
    · exact ⟨[], by simp [List.dropWhile_cons, h]⟩

theorem dropWhile_head_not {α : Type} (p : α → Bool) (l : List α) :
    l.dropWhile p = [] ∨
      ∃ c cs, l.dropWhile p = c :: cs ∧ p c = false := by
  induction l with
  | nil => exact Or.inl rfl
  | cons a l ih =>
    by_cases h : p a = true
    · simpa [List.dropWhile_cons, h] using ih
    · exact Or.inr ⟨a, l, by simp [List.dropWhile_cons, h],
        by simpa using h⟩

theorem dropTrail_prefix_decomp (l : List Char) :
    ∃ u, l = dropTrail l ++ u := by
  obtain ⟨v, hv⟩ := dropWhile_suffix_decomp isPySpace l.reverse
  refine ⟨v.reverse, ?_⟩
  have := congrArg List.reverse hv
  simpa [dropTrail] using this

theorem dropTrail_dropTrail (l : List Char) :
    dropTrail (dropTrail l) = dropTrail l := by
  simp [dropTrail, dropWhile_dropWhile]

theorem dropWhile_length_le {α : Type} (p : α → Bool) (l : List α) :
    (l.dropWhile p).length ≤ l.length := by
  induction l with
  | nil => simp
  | cons a l ih =>
    by_cases h : p a = true
    · simp only [List.dropWhile_cons, h, if_true]
      exact Nat.le_succ_of_le ih
    · simp [List.dropWhile_cons, h]

theorem dropLead_stripChars (l : List Char) :
    dropLead (stripChars l) = stripChars l := by
  rcases h : stripChars l with _ | ⟨c, t⟩
  · rfl
  · obtain ⟨u, hu⟩ := dropTrail_prefix_decomp (dropLead l)
    rw [show dropTrail (dropLead l) = stripChars l from rfl, h] at hu
    have hx : dropLead (dropLead l) = dropLead l := dropWhile_dropWhile _ _
    rw [hu] at hx
    have hpc : isPySpace c = false := by
      by_cases hpc : isPySpace c = true
      · exfalso
        rw [show dropLead ((c :: t) ++ u) =
              List.dropWhile isPySpace (c :: (t ++ u)) from rfl,
            List.dropWhile_cons, if_pos hpc] at hx
        have h1 := congrArg List.length hx
        have h2 := dropWhile_length_le isPySpace (t ++ u)
        simp only [List.length_cons, List.length_append] at h1 h2
        omega
      · simpa using hpc
    show List.dropWhile isPySpace (c :: t) = c :: t
    rw [List.dropWhile_cons, if_neg (by simp [hpc])]

theorem stripChars_stripChars (l : List Char) :
    stripChars (stripChars l) = stripChars l := by
  show dropTrail (dropLead (stripChars l)) = stripChars l
  rw [dropLead_stripChars, stripChars, dropTrail_dropTrail]

theorem lineSubF_no_ins (isM : List Char → Bool) :
    ∀ (fuel : Nat) (ls : List (List Char)), lineSubF isM false fuel ls = ls := by
  intro fuel
  induction fuel with
  | zero => intro ls; rfl
  | succ fuel ih =>
    intro ls
    rcases ls with _ | ⟨l, _ | ⟨next, rest⟩⟩
    · rfl
    · rfl
    · show (if isM next && !rest.isEmpty then l :: next :: lineSubF isM false fuel rest
            else l :: lineSubF isM false fuel (next :: rest)) = _
      by_cases h : (isM next && !rest.isEmpty) = true
      · rw [if_pos h, ih]
      · rw [if_neg h, ih]

theorem bulletSub_id (s : List Char) : bulletSub s = s := by
  rw [bulletSub, lineSubstitution, lineSubF_no_ins, joinNl_splitNl]

theorem takeWhile_nl_replicate (cs : List Char) :
    cs.takeWhile (fun x => x == '\n') =
      List.replicate (cs.takeWhile (fun x => x == '\n')).length '\n' := by
  induction cs with
  | nil => rfl
  | cons a cs ih =>
    by_cases h : (a == '\n') = true
    · have ha : a = '\n' := by simpa using h
      subst ha
      simp only [List.takeWhile_cons, h, if_true, List.length_cons,
        List.replicate_succ]
      exact congrArg _ ih
    · simp [List.takeWhile_cons, h]

theorem takeWhile_nl_short (cs : List Char)
    (h : (['\n', '\n'].isPrefixOf cs) = false) :
    (cs.takeWhile (fun x => x == '\n')).length ≤ 1 := by
  rcases cs with _ | ⟨a, _ | ⟨b, cs'⟩⟩
  · simp
  · by_cases ha : (a == '\n') = true <;> simp [List.takeWhile_cons, ha]
  · by_cases ha : (a == '\n') = true
    · by_cases hb : (b == '\n') = true
      · exfalso
        have ha' : a = '\n' := by simpa using ha
        have hb' : b = '\n' := by simpa using hb
        subst ha'
        subst hb'
        simp [List.isPrefixOf] at h
      · simp [List.takeWhile_cons, ha, hb]
    · simp [List.takeWhile_cons, ha]

theorem hasTriple_cons (c : Char) (cs : List Char) :
    hasTriple (c :: cs) =
      ((c == '\n' && ['\n', '\n'].isPrefixOf cs) || hasTriple cs) := rfl

theorem hasTriple_tail {c : Char} {cs : List Char}
    (h : hasTriple (c :: cs) = false) : hasTriple cs = false := by
  rw [hasTriple_cons] at h
  exact (Bool.or_eq_false_iff.mp h).2

theorem hasTriple_dropWhile (p : Char → Bool) (l : List Char)
    (h : hasTriple l = false) : hasTriple (l.dropWhile p) = false := by
  induction l with
  | nil => simpa using h
  | cons a l ih =>
    by_cases hp : p a = true
    · rw [List.dropWhile_cons, if_pos hp]
      exact ih (hasTriple_tail h)
    · rw [List.dropWhile_cons, if_neg hp]
      exact h

theorem isPrefixOf_append_of {p a : List Char} (b : List Char)
    (h : p.isPrefixOf a = true) : p.isPrefixOf (a ++ b) = true := by
  induction p generalizing a with
  | nil => simp [List.isPrefixOf]
  | cons x p ih =>
    cases a with
    | nil => simp [List.isPrefixOf] at h
    | cons y a =>
      simp only [List.isPrefixOf, Bool.and_eq_true] at h
      simp only [List.cons_append, List.isPrefixOf, Bool.and_eq_true]
      exact ⟨h.1, ih h.2⟩

theorem hasTriple_append_left {a : List Char} (b : List Char)
    (h : hasTriple a = true) : hasTriple (a ++ b) = true := by
  induction a with
  | nil => simp [hasTriple] at h
  | cons c a ih =>
    rw [hasTriple_cons, Bool.or_eq_true] at h
    rw [List.cons_append, hasTriple_cons, Bool.or_eq_true]
    rcases h with h | h
    · rw [Bool.and_eq_true] at h
      exact Or.inl (by rw [Bool.and_eq_true]
                       exact ⟨h.1, isPrefixOf_append_of b h.2⟩)
    · exact Or.inr (ih h)

theorem hasTriple_prefix_false {a b : List Char}
    (h : hasTriple (a ++ b) = false) : hasTriple a = false := by
  by_cases ha : hasTriple a = true
  · rw [hasTriple_append_left b ha] at h
    exact absurd h (by simp)
  · simpa using ha

theorem hasTriple_stripChars (s : List Char) (h : hasTriple s = false) :
    hasTriple (stripChars s) = false := by
  have h1 : hasTriple (dropLead s) = false := hasTriple_dropWhile _ _ h
  obtain ⟨u, hu⟩ := dropTrail_prefix_decomp (dropLead s)
  rw [hu] at h1
  exact hasTriple_prefix_false h1

theorem collapseNlF_nil (fuel : Nat) : collapseNlF fuel [] = [] := by
  cases fuel <;> rfl

theorem collapseNlF_cons_ne (fuel : Nat) (c : Char) (cs : List Char)
    (hc : ¬c = '\n') :
    collapseNlF (fuel + 1) (c :: cs) = c :: collapseNlF fuel cs := by
  simp only [collapseNlF, if_neg hc]

theorem collapseNlF_cons_nl (fuel : Nat) (cs : List Char) :
    collapseNlF (fuel + 1) ('\n' :: cs) =
      (if 3 ≤ 1 + (cs.takeWhile (fun x => x == '\n')).length then ['\n', '\n']
       else List.replicate (1 + (cs.takeWhile (fun x => x == '\n')).length) '\n') ++
        collapseNlF fuel (cs.dropWhile (fun x => x == '\n')) := by
  simp only [collapseNlF, if_pos rfl]
  rw [if_pos trivial]

theorem collapseNlF_fixed (fuel : Nat) :
    ∀ s : List Char, hasTriple s = false → collapseNlF fuel s = s := by
  induction fuel with
  | zero => intro s _; rfl
  | succ fuel ih =>
    intro s h
    rcases s with _ | ⟨c, cs⟩
    · rfl
    · by_cases hc : c = '\n'
      · subst hc
        have hpfx : (['\n', '\n'].isPrefixOf cs) = false := by
          rw [hasTriple_cons] at h
          have := (Bool.or_eq_false_iff.mp h).1
          simpa using this
        have hrun : (cs.takeWhile (fun x => x == '\n')).length ≤ 1 :=
          takeWhile_nl_short cs hpfx
        rw [collapseNlF_cons_nl, if_neg (by omega),
          ih _ (hasTriple_dropWhile _ _ (hasTriple_tail h))]
        rw [show (1 + (cs.takeWhile (fun x => x == '\n')).length) =
              (cs.takeWhile (fun x => x == '\n')).length + 1 by omega,
          List.replicate_succ]
        rw [← takeWhile_nl_replicate cs]
        simp [List.takeWhile_append_dropWhile]
      · rw [collapseNlF_cons_ne fuel c cs hc, ih _ (hasTriple_tail h)]

theorem collapseNlF_head_ne (fuel : Nat) (c : Char) (cs : List Char)
    (hc : ¬c = '\n') :
    ∃ t, collapseNlF fuel (c :: cs) = c :: t := by
  cases fuel with
  | zero => exact ⟨cs, rfl⟩
  | succ fuel => exact ⟨_, collapseNlF_cons_ne fuel c cs hc⟩

theorem hasTriple_nl_prepend {Y : List Char} (hY : hasTriple Y = false)
    (hhead : Y = [] ∨ ∃ d t, Y = d :: t ∧ ¬d = '\n') :
    hasTriple ('\n' :: Y) = false ∧ hasTriple ('\n' :: '\n' :: Y) = false := by
  have hp1 : (['\n'].isPrefixOf Y) = false := by
    rcases hhead with h | ⟨d, t, hdt, hd⟩
    · subst h; rfl
    · subst hdt
      have hnd : ('\n' == d) = false := by
        by_cases hdd : ('\n' == d) = true
        · exact absurd (show d = '\n' from (by simpa using hdd : ('\n' : Char) = d).symm) hd
        · simpa using hdd
      simp [List.isPrefixOf, hnd]
  have hp2 : (['\n', '\n'].isPrefixOf Y) = false := by
    rcases hhead with h | ⟨d, t, hdt, hd⟩
    · subst h; rfl
    · subst hdt
      have hnd : ('\n' == d) = false := by
        by_cases hdd : ('\n' == d) = true
        · exact absurd (show d = '\n' from (by simpa using hdd : ('\n' : Char) = d).symm) hd
        · simpa using hdd
      simp [List.isPrefixOf, hnd]
  have h1 : hasTriple ('\n' :: Y) = false := by
    rw [hasTriple_cons, hp2, hY]
    simp
  refine ⟨h1, ?_⟩
  rw [hasTriple_cons, h1]
  have : (['\n', '\n'].isPrefixOf ('\n' :: Y)) = false := by
    simp [List.isPrefixOf, hp1]
  rw [this]
  simp

theorem collapseNlF_noTriple (fuel : Nat) :
    ∀ s : List Char, s.length ≤ fuel →
      hasTriple (collapseNlF fuel s) = false := by
  induction fuel with
  | zero =>
    intro s hs
    have : s = [] := List.length_eq_zero.mp (Nat.le_zero.mp hs)
    subst this
    rfl
  | succ fuel ih =>
    intro s hs
    rcases s with _ | ⟨c, cs⟩
    · rfl
    · have hcs : cs.length ≤ fuel := by
        simp only [List.length_cons] at hs; omega
      by_cases hc : c = '\n'
      · subst hc
        have hrest : (cs.dropWhile (fun x => x == '\n')).length ≤ fuel :=
          le_trans (dropWhile_length_le _ cs) hcs
        have hY : hasTriple (collapseNlF fuel (cs.dropWhile (fun x => x == '\n')))
            = false := ih _ hrest
        have hhead : collapseNlF fuel (cs.dropWhile (fun x => x == '\n')) = [] ∨
            ∃ d t, collapseNlF fuel (cs.dropWhile (fun x => x == '\n')) = d :: t
                ∧ ¬d = '\n' := by
          rcases dropWhile_head_not (fun x => x == '\n') cs with hr |
            ⟨d, t, hdt, hpd⟩
          · rw [hr, collapseNlF_nil]
            exact Or.inl rfl
          · rw [hdt]
            obtain ⟨t', ht'⟩ := collapseNlF_head_ne fuel d t (by simpa using hpd)
            exact Or.inr ⟨d, t', ht', by simpa using hpd⟩
        obtain ⟨g1, g2⟩ := hasTriple_nl_prepend hY hhead
        rw [collapseNlF_cons_nl]
        by_cases h3 : 3 ≤ 1 + (cs.takeWhile (fun x => x == '\n')).length
        · rw [if_pos h3]
          simpa using g2
        · rw [if_neg h3]
          have : (cs.takeWhile (fun x => x == '\n')).length = 0 ∨
              (cs.takeWhile (fun x => x == '\n')).length = 1 := by omega
          rcases this with h0 | h0 <;> rw [h0]
          · simpa [List.replicate] using g1
          · simpa [List.replicate] using g2
      · rw [collapseNlF_cons_ne fuel c cs hc, hasTriple_cons]
        rw [show (c == '\n') = false by simpa using hc]
        simp only [Bool.false_and, Bool.false_or]
        exact ih cs hcs

theorem enhance_eq_of_nonempty (x : List Char) (hx : x.isEmpty = false) :
    enhance_response_formatting x =
      stripChars (collapseNl (arrowSub
        (literalLineSub "### Sentiment Summary".data
          (literalLineSub "### Key Observations".data
            (literalLineSub "### Conclusion".data
              (emojiSub (bulletSub (headerSub (filteredCore x))))))))) := by
  simp only [enhance_response_formatting, hx, Bool.false_eq_true, if_false]
  rfl

/-- C6 (counterexample): the formatter is not idempotent.  On a text with two
adjacent header lines the first pass inserts blank lines around only every
other header (the substitution consumes the trailing newline of a match), so a
second pass inserts more spacing and yields a different text. -/
theorem formatter_not_idempotent :
    enhance_response_formatting
        (enhance_response_formatting ("a\n## x\n## y\nb".data))
      ≠ enhance_response_formatting ("a\n## x\n## y\nb".data) := by decide

/-- C6 (amended): the formatter is idempotent on every input whose cleaned form
is left unchanged by each spacing-insertion substitution (header, emoji-bullet,
conclusion-style literal and call-to-action spacing) and contains no
debug/gateway lines; the line filter, the bullet substitution, the newline
collapsing and the trimming are then fixed on the cleaned form, so a second
application changes nothing.  In general idempotence fails (see the
counterexample): a second pass can insert further blank lines around adjacent
marker lines. -/
theorem formatter_idempotent_on_stable (x : List Char)
    (h0 : (splitNl (enhance_response_formatting x)).filter keepLine
            = splitNl (enhance_response_formatting x))
    (h1 : headerSub (enhance_response_formatting x)
            = enhance_response_formatting x)
    (h2 : emojiSub (enhance_response_formatting x)
            = enhance_response_formatting x)
    (h3 : literalLineSub "### Conclusion".data (enhance_response_formatting x)
            = enhance_response_formatting x)
    (h4 : literalLineSub "### Key Observations".data
            (enhance_response_formatting x) = enhance_response_formatting x)
    (h5 : literalLineSub "### Sentiment Summary".data
            (enhance_response_formatting x) = enhance_response_formatting x)
    (h6 : arrowSub (enhance_response_formatting x)
            = enhance_response_formatting x) :
    enhance_response_formatting (enhance_response_formatting x)
      = enhance_response_formatting x := by
  by_cases hy : (enhance_response_formatting x).isEmpty = true
  · have hynil : enhance_response_formatting x = [] := by
      rcases h : enhance_response_formatting x with _ | ⟨c, t⟩
      · rfl
      · rw [h] at hy
        simp [List.isEmpty] at hy
    rw [hynil]
    rfl
  · have hy' : (enhance_response_formatting x).isEmpty = false := by
      simpa using hy
    have hx : x.isEmpty = false := by
      rcases x with _ | ⟨c, cs⟩
      · exact absurd hy' (by decide)
      · rfl
    have hstrip : stripChars (enhance_response_formatting x)
        = enhance_response_formatting x := by
      rw [enhance_eq_of_nonempty x hx]
      exact stripChars_stripChars _
    have hnt : hasTriple (enhance_response_formatting x) = false := by
      rw [enhance_eq_of_nonempty x hx]
      exact hasTriple_stripChars _ (collapseNlF_noTriple _ _ le_rfl)
    have hcol : collapseNl (enhance_response_formatting x)
        = enhance_response_formatting x :=
      collapseNlF_fixed _ _ hnt
    have hfc : filteredCore (enhance_response_formatting x)
        = enhance_response_formatting x := by
      rw [filteredCore, h0, joinNl_splitNl]
      exact hstrip
    rw [enhance_eq_of_nonempty _ hy', hfc, h1, bulletSub_id, h2, h3, h4, h5,
      h6, hcol, hstrip]

/-- C6 (witness): a concrete text on which the stability hypotheses hold, so
cleaning twice equals cleaning once. -/
theorem formatter_idempotent_on_stable_witness :
    enhance_response_formatting
        (enhance_response_formatting ("Revenue rose.\nNice.".data))
      = enhance_response_formatting ("Revenue rose.\nNice.".data) :=
  formatter_idempotent_on_stable _ (by decide) (by decide) (by decide)
    (by decide) (by decide) (by decide) (by decide)

/-- C7 (counterexample): the formatter does not preserve all non-removed
content verbatim: on a text with a markdown header line (no debug lines, no
long newline runs, already trimmed) it INSERTS blank lines around the header,
so the output differs from the input. -/
theorem formatter_alters_content :
    enhance_response_formatting ("a\n## h\nb".data) = "a\n\n## h\n\nb".data ∧
    "a\n\n## h\n\nb".data ≠ "a\n## h\nb".data :=
  ⟨by decide, by decide⟩

/-- C7 (amended): the formatter removes debug/trace-marker lines and
gateway-host connectivity lines, collapses newline runs of three or more down
to two, trims leading/trailing whitespace — and in addition may insert blank
lines around markdown headers, emoji bullet items, conclusion-style headers
and call-to-action lines.  On any input whose filtered-and-trimmed core is
left unchanged by those spacing substitutions, the output is exactly the
filtered core with newline runs collapsed and whitespace trimmed. -/
theorem formatter_core_behavior (x : List Char)
    (h1 : headerSub (filteredCore x) = filteredCore x)
    (h2 : emojiSub (filteredCore x) = filteredCore x)
    (h3 : literalLineSub "### Conclusion".data (filteredCore x) = filteredCore x)
    (h4 : literalLineSub "### Key Observations".data (filteredCore x)
            = filteredCore x)
    (h5 : literalLineSub "### Sentiment Summary".data (filteredCore x)
            = filteredCore x)
    (h6 : arrowSub (filteredCore x) = filteredCore x) :
    enhance_response_formatting x = stripChars (collapseNl (filteredCore x)) := by
  by_cases hx : x.isEmpty = true
  · have hxnil : x = [] := by
      rcases x with _ | ⟨c, cs⟩
      · rfl
      · simp [List.isEmpty] at hx
    subst hxnil
    decide
  · rw [enhance_eq_of_nonempty x (by simpa using hx), h1, bulletSub_id, h2,
      h3, h4, h5, h6]

/-- C7 (witness): a concrete input with a debug line, a four-newline run and
surrounding whitespace; its cleaned form is the filtered core with runs
collapsed and ends trimmed. -/
theorem formatter_core_behavior_witness :
    enhance_response_formatting (" hi\n[debug] x\n\n\n\nworld ".data)
      = stripChars (collapseNl (filteredCore (" hi\n[debug] x\n\n\n\nworld ".data))) :=
  formatter_core_behavior _ (by decide) (by decide) (by decide) (by decide)
    (by decide) (by decide)

/-! ### Lemmas about the orchestration loop -/

theorem stepChunk_evs_content (st : FirstState) (ch : Chunk)
    (h : ∀ e ∈ st.evs, isContentEvent e = true) :
    ∀ e ∈ (stepChunk st ch).evs, isContentEvent e = true := by
  rcases ch with _ | ⟨d, ds⟩
  · exact h
  · show ∀ e ∈ (match d.tool_calls with
      | some ds => if ds.isEmpty then stepContent st d
                   else ⟨st.acc, ds.foldl applyToolCallDelta st.calls, st.evs⟩
      | none => stepContent st d).evs, isContentEvent e = true
    have hcont : ∀ e ∈ (stepContent st d).evs, isContentEvent e = true := by
      rcases hc : d.content with _ | s
      · simpa [stepContent, hc] using h
      · by_cases hs : s = ""
        · simpa [stepContent, hc, hs] using h
        · intro e he
          simp only [stepContent, hc, if_neg hs, List.mem_append,
            List.mem_singleton] at he
          rcases he with he | he
          · exact h e he
          · subst he; rfl
    rcases htc : d.tool_calls with _ | ds'
    · exact hcont
    · by_cases hd : ds'.isEmpty = true
      · simpa [hd] using hcont
      · simpa [hd] using h

theorem processFirst_evs_content (chunks : List Chunk) :
    ∀ e ∈ (processFirst chunks).evs, isContentEvent e = true := by
  have main : ∀ (cl : List Chunk) (st : FirstState),
      (∀ e ∈ st.evs, isContentEvent e = true) →
      ∀ e ∈ (cl.foldl stepChunk st).evs, isContentEvent e = true := by
    intro cl
    induction cl with
    | nil => intro st h; exact h
    | cons ch cl ih =>
      intro st h
      exact ih _ (stepChunk_evs_content st ch h)
  exact main chunks ⟨"", [], []⟩ (by intro e he; simp at he)

theorem toolEvents_join {A : Type} (parse : String → Except String A)
    (exec : String → A → Except String String) (calls : List ToolCallAcc) :
    ((calls.map (runToolCall parse exec)).map Prod.snd).join
      = (calls.filter (parseOk parse)).map
          (fun tc => StreamEvent.toolExecution ("Executing " ++ tc.name ++ "...")) := by
  induction calls with
  | nil => rfl
  | cons tc calls ih =>
    simp only [List.map_cons, List.join, List.filter_cons]
    rcases hp : parse (toolPayload tc) with e | args
    · have : parseOk parse tc = false := by simp [parseOk, hp]
      rw [this]
      simp only [Bool.false_eq_true, if_false]
      rw [show (runToolCall parse exec tc).2 = [] by simp [runToolCall, hp]]
      simpa using ih
    · have : parseOk parse tc = true := by simp [parseOk, hp]
      rw [this, if_pos rfl]
      have h2 : (runToolCall parse exec tc).2 =
          [StreamEvent.toolExecution ("Executing " ++ tc.name ++ "...")] := by
        simp only [runToolCall, hp]
        rcases exec tc.name args <;> rfl
      rw [h2, List.map_cons]
      simpa using ih

theorem filter_ne_empty_of_all {l : List String} (h : ∀ s ∈ l, s = "") :
    l.filter (fun s => s ≠ "") = [] := by
  induction l with
  | nil => rfl
  | cons a l ih =>
    have ha : a = "" := h a (by simp)
    rw [List.filter_cons]
    simp only [ha]
    simpa using ih (fun s hs => h s (by simp [hs]))

theorem countAssistant_append (a b : List (String × String)) :
    countAssistant (a ++ b) = countAssistant a + countAssistant b := by
  simp [countAssistant, List.filter_append]

theorem countAssistant_save_true (saved : List (String × String))
    (role content : String) :
    countAssistant (save_message (fun _ _ => true) saved role content)
      = countAssistant saved + (if role == "assistant" then 1 else 0) := by
  rw [save_message]
  rw [if_pos rfl]
  rw [countAssistant_append]
  by_cases hr : (role == "assistant") = true
  · simp [countAssistant, hr]
  · simp only [countAssistant, List.filter_cons]
    simp [hr]

theorem isErrorEvent_of_content {e : StreamEvent}
    (h : isContentEvent e = true) : isErrorEvent e = false := by
  cases e <;> simp_all [isContentEvent, isErrorEvent]

theorem hasErrorEvent_append (a b : List StreamEvent) :
    hasErrorEvent (a ++ b) = (hasErrorEvent a || hasErrorEvent b) := by
  simp [hasErrorEvent, List.any_append]

theorem hasErrorEvent_of_all_content {evs : List StreamEvent}
    (h : ∀ e ∈ evs, isContentEvent e = true) : hasErrorEvent evs = false := by
  simp only [hasErrorEvent, List.any_eq_false]
  intro e he
  rw [isErrorEvent_of_content (h e he)]
  simp

theorem hasErrorEvent_secondEvents (chunks2 : List String) :
    hasErrorEvent (secondEvents chunks2) = false := by
  simp only [secondEvents, hasErrorEvent, List.any_eq_false, List.mem_map]
  rintro e ⟨s, _, rfl⟩
  simp [isErrorEvent]

theorem hasErrorEvent_toolEvents {A : Type} (parse : String → Except String A)
    (exec : String → A → Except String String) (calls : List ToolCallAcc) :
    hasErrorEvent (((calls.map (runToolCall parse exec)).map Prod.snd).join)
      = false := by
  rw [toolEvents_join]
  simp only [hasErrorEvent, List.any_eq_false, List.mem_map]
  rintro e ⟨tc, _, rfl⟩
  simp [isErrorEvent]

theorem handle_events_indep {A : Type} (parse : String → Except String A)
    (exec : String → A → Except String String)
    (saveOk saveOk' : String → String → Bool) (chunks : List Chunk)
    (firstErr : Option String)
    (fstream : Except String (List String × Option String))
    (messages0 : List ChatMsg) :
    (handle_openai_streaming_response parse exec saveOk chunks firstErr
        fstream messages0).events
      = (handle_openai_streaming_response parse exec saveOk' chunks firstErr
          fstream messages0).events := by
  rcases firstErr with _ | e
  · simp only [handle_openai_streaming_response]
    by_cases h : hasNamedCall (processFirst chunks).calls = true
    · simp only [h, if_true]
      rcases fstream with e | ⟨chunks2, err2⟩
      · rfl
      · rcases err2 with _ | e
        · by_cases hs : secondText chunks2 = "" <;> simp [hs]
        · rfl
    · simp only [h]
      by_cases ha : (processFirst chunks).acc = "" <;> simp [h, ha]
  · rfl

theorem countAssistant_save_assistant (c : String) :
    countAssistant (save_message (fun _ _ => true) [] "assistant" c) = 1 := by
  rw [countAssistant_save_true]
  rfl

theorem countAssistant_user (um : String) :
    countAssistant (save_message (fun _ _ => true) [] "user" um) = 0 := by
  rw [countAssistant_save_true]
  rfl

/-- C4: for every tool call of a round, the loop appends exactly one tool-role
message to the conversation, correlated to the identifier of that call, even when
executing the call raises or its argument payload is empty or malformed: the
conversation after the round is the original messages, the assistant tool-call
request, and one tool message per accumulated call in order; every tool
message has role `tool` and the id of its call; an empty argument payload behaves
exactly like the payload `"\x7b\x7d"`; and the second invocation still
proceeds (its `final_response` marker is always yielded). -/
theorem loop_one_tool_message_per_call {A : Type}
    (parse : String → Except String A)
    (exec : String → A → Except String String)
    (saveOk : String → String → Bool) (chunks : List Chunk)
    (fstream : Except String (List String × Option String))
    (messages0 : List ChatMsg)
    (h : hasNamedCall (processFirst chunks).calls = true) :
    (handle_openai_streaming_response parse exec saveOk chunks none fstream
        messages0).messages
      = messages0
          ++ [assistantToolMsg (processFirst chunks).acc (processFirst chunks).calls]
          ++ (processFirst chunks).calls.map
               (fun tc => (runToolCall parse exec tc).1) ∧
    (∀ tc : ToolCallAcc, ((runToolCall parse exec tc).1).role = "tool" ∧
        ((runToolCall parse exec tc).1).tool_call_id = some tc.id) ∧
    (∀ tc : ToolCallAcc, tc.arguments = "" →
        runToolCall parse exec tc
          = runToolCall parse exec { tc with arguments := "\x7b\x7d" }) ∧
    StreamEvent.finalResponse "Generating final response..."
      ∈ (handle_openai_streaming_response parse exec saveOk chunks none fstream
          messages0).events := by
  refine ⟨?_, ?_, ?_, ?_⟩
  · simp only [handle_openai_streaming_response, h, if_true]
    rcases fstream with e | ⟨chunks2, err2⟩
    · simp [List.map_map]
    · rcases err2 with _ | e
      · by_cases hs : secondText chunks2 = "" <;> simp [hs, List.map_map]
      · simp [List.map_map]
  · intro tc
    refine ⟨?_, ?_⟩ <;>
      · rcases hp : parse (toolPayload tc) with e | a
        · simp [runToolCall, hp]
        · rcases he : exec tc.name a with e | d <;> simp [runToolCall, hp, he]
  · intro tc h0
    have hpay : toolPayload tc = "\x7b\x7d" := by simp [toolPayload, h0]
    have hpay2 : toolPayload { tc with arguments := "\x7b\x7d" } = "\x7b\x7d" := by
      simp [toolPayload]
    simp only [runToolCall, hpay, hpay2]
  · simp only [handle_openai_streaming_response, h, if_true]
    rcases fstream with e | ⟨chunks2, err2⟩
    · simp
    · rcases err2 with _ | e
      · by_cases hs : secondText chunks2 = "" <;> simp [hs]
      · simp

/-- C4 (witness): a round with two tool calls, the first with malformed
arguments (its parse raises) and the second with empty arguments, still
appends one tool message per call in order. -/
theorem loop_one_tool_message_per_call_witness :
    (handle_openai_streaming_response
        (fun s => if s == "\x7b\x7d" then Except.ok () else Except.error "Expecting value")
        (fun _ _ => Except.ok "\"ok\"") (fun _ _ => true)
        [[⟨none, some [headDelta 0 "call_a" "getOrderDetails",
                       argDelta 0 "oops",
                       headDelta 1 "call_b" "getCustomers"]⟩]]
        none (Except.ok (["done"], none)) []).messages
      = []
          ++ [assistantToolMsg
                (processFirst [[⟨none, some [headDelta 0 "call_a" "getOrderDetails",
                                             argDelta 0 "oops",
                                             headDelta 1 "call_b" "getCustomers"]⟩]]).acc
                (processFirst [[⟨none, some [headDelta 0 "call_a" "getOrderDetails",
                                             argDelta 0 "oops",
                                             headDelta 1 "call_b" "getCustomers"]⟩]]).calls]
          ++ (processFirst [[⟨none, some [headDelta 0 "call_a" "getOrderDetails",
                                          argDelta 0 "oops",
                                          headDelta 1 "call_b" "getCustomers"]⟩]]).calls.map
               (fun tc => (runToolCall
                 (fun s => if s == "\x7b\x7d" then Except.ok () else Except.error "Expecting value")
                 (fun _ _ => Except.ok "\"ok\"") tc).1) :=
  (loop_one_tool_message_per_call _ _ _ _ _ _ (by decide)).1

/-- C8 (counterexample): the stream does not emit one `tool_execution` event
per tool call: a call whose argument payload fails JSON parsing yields no
`tool_execution` event at all (the event is yielded only after `json.loads`
succeeds), so a round with one tool call can emit zero `tool_execution`
events. -/
theorem streaming_missing_tool_execution_event :
    (handle_openai_streaming_response
        (fun s => if s == "\x7b\x7d" then Except.ok () else Except.error "Expecting value")
        (fun _ _ => Except.ok "\"ok\"") (fun _ _ => true)
        [[⟨none, some [headDelta 0 "call_a" "getCustomers", argDelta 0 "oops"]⟩]]
        none (Except.ok ([], none)) []).events
      = [StreamEvent.toolCalls "Processing your request...",
         StreamEvent.finalResponse "Generating final response..."] ∧
    (processFirst
        [[⟨none, some [headDelta 0 "call_a" "getCustomers", argDelta 0 "oops"]⟩]]).calls.length
      = 1 := by
  exact ⟨by decide, by decide⟩

/-- C8 (amended): in a streamed turn with tool calls that completes without
error, the event sequence is exactly: the content events of the first round, then
the single `tool_calls` event, then one `tool_execution` event per tool call
whose argument payload parses as JSON (a call with malformed arguments emits
none), then the `final_response` marker, then the content events of the second
round — so the ordering of the claim holds strictly. -/
theorem streaming_event_order {A : Type}
    (parse : String → Except String A)
    (exec : String → A → Except String String)
    (saveOk : String → String → Bool) (chunks : List Chunk)
    (chunks2 : List String) (messages0 : List ChatMsg)
    (h : hasNamedCall (processFirst chunks).calls = true) :
    (handle_openai_streaming_response parse exec saveOk chunks none
        (Except.ok (chunks2, none)) messages0).events
      = (processFirst chunks).evs
          ++ [StreamEvent.toolCalls "Processing your request..."]
          ++ ((processFirst chunks).calls.filter (parseOk parse)).map
               (fun tc => StreamEvent.toolExecution ("Executing " ++ tc.name ++ "..."))
          ++ [StreamEvent.finalResponse "Generating final response..."]
          ++ secondEvents chunks2 ∧
    (∀ e ∈ (processFirst chunks).evs, isContentEvent e = true) ∧
    (∀ e ∈ secondEvents chunks2, isContentEvent e = true) := by
  refine ⟨?_, processFirst_evs_content chunks, ?_⟩
  · simp only [handle_openai_streaming_response, h, if_true]
    by_cases hs : secondText chunks2 = ""
    · rw [if_pos hs]
      show _ ++ _ = _
      rw [toolEvents_join]
    · rw [if_neg hs]
      show _ ++ _ = _
      rw [toolEvents_join]
  · intro e he
    simp only [secondEvents, List.mem_map] at he
    obtain ⟨s, _, rfl⟩ := he
    rfl

/-- C8 (witness): a concrete two-call round (one malformed payload, one well
formed) produces exactly the ordered event sequence. -/
theorem streaming_event_order_witness :
    (handle_openai_streaming_response
        (fun s => if s == "\x7b\x7d" then Except.ok () else Except.error "Expecting value")
        (fun _ _ => Except.ok "\"ok\"") (fun _ _ => true)
        [[⟨some "Hi", none⟩],
         [⟨none, some [headDelta 0 "call_a" "getOrderDetails",
                       argDelta 0 "oops",
                       headDelta 1 "call_b" "getCustomers"]⟩]]
        none (Except.ok (["Done"], none)) []).events
      = (processFirst [[⟨some "Hi", none⟩],
          [⟨none, some [headDelta 0 "call_a" "getOrderDetails",
                        argDelta 0 "oops",
                        headDelta 1 "call_b" "getCustomers"]⟩]]).evs
          ++ [StreamEvent.toolCalls "Processing your request..."]
          ++ ((processFirst [[⟨some "Hi", none⟩],
                [⟨none, some [headDelta 0 "call_a" "getOrderDetails",
                              argDelta 0 "oops",
                              headDelta 1 "call_b" "getCustomers"]⟩]]).calls.filter
                (parseOk (fun s => if s == "\x7b\x7d" then Except.ok ()
                                   else Except.error "Expecting value"))).map
               (fun tc => StreamEvent.toolExecution ("Executing " ++ tc.name ++ "..."))
          ++ [StreamEvent.finalResponse "Generating final response..."]
          ++ secondEvents ["Done"] :=
  (streaming_event_order _ _ _ _ _ _ (by decide)).1

/-- C3 (counterexample): a round with a tool call whose second model
invocation yields no content persists NO assistant message at all — no
fallback acknowledgment is substituted (the loop only persists when
`final_content` is truthy), even though the round demonstrably ran (the
progress events were yielded). -/
theorem empty_final_round_persists_nothing :
    (handle_openai_streaming_response (A := Unit)
        (fun _ => Except.ok ()) (fun _ _ => Except.ok "\"ok\"") (fun _ _ => true)
        [[⟨none, some [headDelta 0 "call_a" "getCustomers"]⟩]]
        none (Except.ok ([], none)) []).saved = [] ∧
    (handle_openai_streaming_response (A := Unit)
        (fun _ => Except.ok ()) (fun _ _ => Except.ok "\"ok\"") (fun _ _ => true)
        [[⟨none, some [headDelta 0 "call_a" "getCustomers"]⟩]]
        none (Except.ok ([], none)) []).events
      = [StreamEvent.toolCalls "Processing your request...",
         StreamEvent.toolExecution "Executing getCustomers...",
         StreamEvent.finalResponse "Generating final response..."] := by
  exact ⟨by decide, by decide⟩

/-- C3 (amended): when the second model invocation yields empty content (every
fragment empty), the streaming loop persists no assistant message for the
turn: nothing is substituted and nothing is saved. -/
theorem empty_final_round_saves_none {A : Type}
    (parse : String → Except String A)
    (exec : String → A → Except String String)
    (saveOk : String → String → Bool) (chunks : List Chunk)
    (chunks2 : List String) (messages0 : List ChatMsg)
    (h : hasNamedCall (processFirst chunks).calls = true)
    (h2 : ∀ s ∈ chunks2, s = "") :
    (handle_openai_streaming_response parse exec saveOk chunks none
        (Except.ok (chunks2, none)) messages0).saved = [] := by
  have hsec : secondText chunks2 = "" := by
    rw [secondText, filter_ne_empty_of_all h2]
    rfl
  simp only [handle_openai_streaming_response, h, if_true, hsec, if_pos rfl]

/-- C3 (witness): the amended statement at a concrete round. -/
theorem empty_final_round_saves_none_witness :
    (handle_openai_streaming_response (A := Unit)
        (fun _ => Except.ok ()) (fun _ _ => Except.ok "\"ok\"") (fun _ _ => true)
        [[⟨none, some [headDelta 0 "call_a" "getCustomers"]⟩]]
        none (Except.ok (["", ""], none)) []).saved = [] :=
  empty_final_round_saves_none _ _ _ _ _ _ (by decide) (by decide)

theorem handle_count_eq {A : Type} (parse : String → Except String A)
    (exec : String → A → Except String String) (chunks : List Chunk)
    (ferr : Option String)
    (fstream : Except String (List String × Option String))
    (msgs0 : List ChatMsg) :
    countAssistant (handle_openai_streaming_response parse exec
        (fun _ _ => true) chunks ferr fstream msgs0).saved
      = (if ferr.isSome then 1
         else if hasNamedCall (processFirst chunks).calls = true then
           (match fstream with
            | Except.error _ => 1
            | Except.ok (_, some _) => 1
            | Except.ok (chunks2, none) =>
                if secondText chunks2 = "" then 0 else 1)
         else if (processFirst chunks).acc = "" then 0 else 1) := by
  rcases ferr with _ | e
  · simp only [handle_openai_streaming_response, Option.isSome_none,
      Bool.false_eq_true, if_false]
    by_cases h : hasNamedCall (processFirst chunks).calls = true
    · simp only [h, if_true]
      rcases fstream with e | ⟨chunks2, err2⟩
      · simp [countAssistant_save_assistant]
      · rcases err2 with _ | e
        · by_cases hs : secondText chunks2 = ""
          · simp [hs, countAssistant]
          · simp [hs, countAssistant_save_assistant]
        · simp [countAssistant_save_assistant]
    · simp only [h, Bool.false_eq_true, if_false]
      by_cases ha : (processFirst chunks).acc = ""
      · simp [ha, countAssistant]
      · simp [ha, countAssistant_save_assistant]
  · simp [handle_openai_streaming_response, countAssistant_save_assistant]

theorem handle_hasError_firstErr {A : Type} (parse : String → Except String A)
    (exec : String → A → Except String String)
    (saveOk : String → String → Bool) (chunks : List Chunk) (e : String)
    (fstream : Except String (List String × Option String))
    (msgs0 : List ChatMsg) :
    hasErrorEvent (handle_openai_streaming_response parse exec saveOk chunks
        (some e) fstream msgs0).events = true := by
  show hasErrorEvent ((processFirst chunks).evs
    ++ [StreamEvent.error (streamErrMsg e)]) = true
  rw [hasErrorEvent_append]
  rw [show hasErrorEvent [StreamEvent.error (streamErrMsg e)] = true from rfl]
  rw [Bool.or_true]

theorem handle_hasError_createFail {A : Type} (parse : String → Except String A)
    (exec : String → A → Except String String)
    (saveOk : String → String → Bool) (chunks : List Chunk) (e : String)
    (msgs0 : List ChatMsg)
    (h : hasNamedCall (processFirst chunks).calls = true) :
    hasErrorEvent (handle_openai_streaming_response parse exec saveOk chunks
        none (Except.error e) msgs0).events = true := by
  simp only [handle_openai_streaming_response, h, if_true]
  show hasErrorEvent (_ ++ [StreamEvent.error (streamErrMsg e)]) = true
  rw [hasErrorEvent_append]
  rw [show hasErrorEvent [StreamEvent.error (streamErrMsg e)] = true from rfl]
  rw [Bool.or_true]

theorem handle_hasError_secondFail {A : Type} (parse : String → Except String A)
    (exec : String → A → Except String String)
    (saveOk : String → String → Bool) (chunks : List Chunk)
    (chunks2 : List String) (e : String) (msgs0 : List ChatMsg)
    (h : hasNamedCall (processFirst chunks).calls = true) :
    hasErrorEvent (handle_openai_streaming_response parse exec saveOk chunks
        none (Except.ok (chunks2, some e)) msgs0).events = true := by
  simp only [handle_openai_streaming_response, h, if_true]
  show hasErrorEvent (_ ++ [StreamEvent.error (streamErrMsg e)]) = true
  rw [hasErrorEvent_append]
  rw [show hasErrorEvent [StreamEvent.error (streamErrMsg e)] = true from rfl]
  rw [Bool.or_true]

theorem handle_no_error_on_success {A : Type} (parse : String → Except String A)
    (exec : String → A → Except String String)
    (saveOk : String → String → Bool) (chunks : List Chunk)
    (chunks2 : List String) (msgs0 : List ChatMsg)
    (h : hasNamedCall (processFirst chunks).calls = true) :
    hasErrorEvent (handle_openai_streaming_response parse exec saveOk chunks
        none (Except.ok (chunks2, none)) msgs0).events = false := by
  have hfirst : hasErrorEvent (processFirst chunks).evs = false :=
    hasErrorEvent_of_all_content (processFirst_evs_content chunks)
  have hTC : hasErrorEvent [StreamEvent.toolCalls "Processing your request..."]
      = false := rfl
  have hFR : hasErrorEvent
      [StreamEvent.finalResponse "Generating final response..."] = false := rfl
  simp only [handle_openai_streaming_response, h, if_true]
  by_cases hs : secondText chunks2 = ""
  · rw [if_pos hs]
    show hasErrorEvent ((processFirst chunks).evs
      ++ [StreamEvent.toolCalls "Processing your request..."]
      ++ (((processFirst chunks).calls.map (runToolCall parse exec)).map
            Prod.snd).join
      ++ [StreamEvent.finalResponse "Generating final response..."]
      ++ secondEvents chunks2) = false
    rw [hasErrorEvent_append, hasErrorEvent_append, hasErrorEvent_append,
      hasErrorEvent_append, hfirst, hTC, hFR, hasErrorEvent_toolEvents,
      hasErrorEvent_secondEvents]
    rfl
  · rw [if_neg hs]
    show hasErrorEvent ((processFirst chunks).evs
      ++ [StreamEvent.toolCalls "Processing your request..."]
      ++ (((processFirst chunks).calls.map (runToolCall parse exec)).map
            Prod.snd).join
      ++ [StreamEvent.finalResponse "Generating final response..."]
      ++ secondEvents chunks2) = false
    rw [hasErrorEvent_append, hasErrorEvent_append, hasErrorEvent_append,
      hasErrorEvent_append, hfirst, hTC, hFR, hasErrorEvent_toolEvents,
      hasErrorEvent_secondEvents]
    rfl

theorem handle_no_error_no_tools {A : Type} (parse : String → Except String A)
    (exec : String → A → Except String String)
    (saveOk : String → String → Bool) (chunks : List Chunk)
    (fstream : Except String (List String × Option String))
    (msgs0 : List ChatMsg)
    (h : hasNamedCall (processFirst chunks).calls = false) :
    hasErrorEvent (handle_openai_streaming_response parse exec saveOk chunks
        none fstream msgs0).events = false := by
  have hfirst : hasErrorEvent (processFirst chunks).evs = false :=
    hasErrorEvent_of_all_content (processFirst_evs_content chunks)
  simp only [handle_openai_streaming_response, h, Bool.false_eq_true, if_false]
  by_cases ha : (processFirst chunks).acc = ""
  · rw [if_pos ha]
    exact hfirst
  · rw [if_neg ha]
    exact hfirst

/-- C1 (counterexample): a run that completes without error but whose model
output is empty (an empty first stream, no tool calls) persists ZERO assistant
messages — not exactly one — because the loop only persists truthy content. -/
theorem run_can_persist_zero_assistant :
    countAssistant (call_openai_streaming (A := Unit)
        (fun _ => Except.ok ()) (fun _ _ => Except.ok "\"ok\"")
        (fun _ _ => true) "sys" "date" [] "hello"
        (ModelOutcome.stream [] none (Except.ok ([], none)))).saved = 0 ∧
    hasErrorEvent (call_openai_streaming (A := Unit)
        (fun _ => Except.ok ()) (fun _ _ => Except.ok "\"ok\"")
        (fun _ _ => true) "sys" "date" [] "hello"
        (ModelOutcome.stream [] none (Except.ok ([], none)))).events = false := by
  exact ⟨by decide, by decide⟩

/-- C1 (amended): with a working message store, every chat request persists AT
MOST one assistant message; every run that ends in an error persists exactly
one (the error text); and in an error-free run the count is exactly one when
the relevant round produced non-empty content and zero when it was empty. -/
theorem run_assistant_count {A : Type} (parse : String → Except String A)
    (exec : String → A → Except String String)
    (systemContent dateContext : String) (history : List (String × String))
    (userMessage : String) (outcome : ModelOutcome) :
    countAssistant (call_openai_streaming parse exec (fun _ _ => true)
        systemContent dateContext history userMessage outcome).saved ≤ 1 ∧
    (hasErrorEvent (call_openai_streaming parse exec (fun _ _ => true)
          systemContent dateContext history userMessage outcome).events = true →
      countAssistant (call_openai_streaming parse exec (fun _ _ => true)
          systemContent dateContext history userMessage outcome).saved = 1) ∧
    (∀ (chunks : List Chunk) (chunks2 : List String),
      countAssistant (call_openai_streaming parse exec (fun _ _ => true)
          systemContent dateContext history userMessage
          (ModelOutcome.stream chunks none (Except.ok (chunks2, none)))).saved
        = if hasNamedCall (processFirst chunks).calls = true then
            (if secondText chunks2 = "" then 0 else 1)
          else if (processFirst chunks).acc = "" then 0 else 1) := by
  have hstream : ∀ (chunks : List Chunk) (ferr : Option String)
      (fstream : Except String (List String × Option String)),
      countAssistant (call_openai_streaming parse exec (fun _ _ => true)
          systemContent dateContext history userMessage
          (ModelOutcome.stream chunks ferr fstream)).saved
        = countAssistant (handle_openai_streaming_response parse exec
            (fun _ _ => true) chunks ferr fstream
            (assembleMessages systemContent dateContext userMessage
              history)).saved := by
    intro chunks ferr fstream
    simp only [call_openai_streaming]
    rw [countAssistant_append, countAssistant_user, Nat.zero_add]
  have hcreate : ∀ e : String,
      countAssistant (call_openai_streaming parse exec (fun _ _ => true)
          systemContent dateContext history userMessage
          (ModelOutcome.createError e)).saved = 1 := by
    intro e
    simp only [call_openai_streaming]
    rw [countAssistant_save_true, countAssistant_save_true]
    rfl
  refine ⟨?_, ?_, ?_⟩
  · rcases outcome with e | ⟨chunks, ferr, fstream⟩
    · rw [hcreate]
    · rw [hstream, handle_count_eq]
      rcases ferr with _ | e
      · simp only [Option.isSome_none, Bool.false_eq_true, if_false]
        by_cases h : hasNamedCall (processFirst chunks).calls = true
        · simp only [h, if_true]
          rcases fstream with e | ⟨chunks2, _ | e2⟩
          · exact Nat.le_refl 1
          · show (if secondText chunks2 = "" then 0 else 1) ≤ 1
            split
            · exact Nat.zero_le 1
            · exact Nat.le_refl 1
          · exact Nat.le_refl 1
        · simp only [h, Bool.false_eq_true, if_false]
          split
          · exact Nat.zero_le 1
          · exact Nat.le_refl 1
      · simp
  · intro herr
    rcases outcome with e | ⟨chunks, ferr, fstream⟩
    · rw [hcreate]
    · have herr2 : hasErrorEvent (handle_openai_streaming_response parse exec
          (fun _ _ => true) chunks ferr fstream
          (assembleMessages systemContent dateContext userMessage
            history)).events = true := herr
      rw [hstream, handle_count_eq]
      rcases ferr with _ | e
      · simp only [Option.isSome_none, Bool.false_eq_true, if_false]
        by_cases h : hasNamedCall (processFirst chunks).calls = true
        · simp only [h, if_true]
          rcases fstream with e | ⟨chunks2, _ | e2⟩
          · rfl
          · rw [handle_no_error_on_success parse exec _ chunks chunks2 _ h]
              at herr2
            exact absurd herr2 (by simp)
          · rfl
        · rw [handle_no_error_no_tools parse exec _ chunks fstream _
              (by simpa using h)] at herr2
          exact absurd herr2 (by simp)
      · rfl
  · intro chunks chunks2
    rw [hstream, handle_count_eq]
    rfl

/-- C1 (witness): a run whose model invocation raises persists exactly one
assistant message, the error text. -/
theorem run_assistant_count_witness :
    countAssistant (call_openai_streaming (A := Unit)
        (fun _ => Except.ok ()) (fun _ _ => Except.ok "\"ok\"")
        (fun _ _ => true) "sys" "date" [] "hello"
        (ModelOutcome.createError "boom")).saved = 1 :=
  (run_assistant_count (A := Unit) (fun _ => Except.ok ())
    (fun _ _ => Except.ok "\"ok\"") "sys" "date" [] "hello"
    (ModelOutcome.createError "boom")).2.1 (by decide)

/-- C9 (counterexample): the request is NOT blocked when the user message
cannot be persisted: with a store that rejects user-role inserts, the user
message is absent from the store, yet the model round proceeds and completes
normally (the assistant reply is persisted and no error event is emitted). -/
theorem persistence_failure_not_blocking :
    ("user", "hello") ∉ (call_openai_streaming (A := Unit)
        (fun _ => Except.ok ()) (fun _ _ => Except.ok "\"ok\"")
        (fun r _ => !(r == "user")) "sys" "date" [] "hello"
        (ModelOutcome.stream [[⟨some "hi", none⟩]] none
          (Except.ok ([], none)))).saved ∧
    (call_openai_streaming (A := Unit)
        (fun _ => Except.ok ()) (fun _ _ => Except.ok "\"ok\"")
        (fun r _ => !(r == "user")) "sys" "date" [] "hello"
        (ModelOutcome.stream [[⟨some "hi", none⟩]] none
          (Except.ok ([], none)))).saved = [("assistant", "hi")] ∧
    hasErrorEvent (call_openai_streaming (A := Unit)
        (fun _ => Except.ok ()) (fun _ _ => Except.ok "\"ok\"")
        (fun r _ => !(r == "user")) "sys" "date" [] "hello"
        (ModelOutcome.stream [[⟨some "hi", none⟩]] none
          (Except.ok ([], none)))).events = false := by
  exact ⟨by decide, by decide, by decide⟩

/-- C9 (amended): when the store accepts the insert, the user message is the
FIRST message persisted by the request (it precedes any assistant turn, so it
is durably recorded before the reply of the model); but a persistence failure does
not block the request: the caller-visible event stream is entirely
independent of the store outcomes, so the model call proceeds regardless. -/
theorem user_message_persisted_first {A : Type}
    (parse : String → Except String A)
    (exec : String → A → Except String String)
    (systemContent dateContext : String) (history : List (String × String))
    (userMessage : String) (outcome : ModelOutcome) :
    (∀ saveOk : String → String → Bool,
      saveOk "user" (if userMessage = "" ∨ pyStrip userMessage = ""
          then "Empty message" else userMessage) = true →
      (call_openai_streaming parse exec saveOk systemContent dateContext
          history userMessage outcome).saved.head?
        = some ("user", if userMessage = "" ∨ pyStrip userMessage = ""
            then "Empty message" else userMessage)) ∧
    (∀ saveOk saveOk' : String → String → Bool,
      (call_openai_streaming parse exec saveOk systemContent dateContext
          history userMessage outcome).events
        = (call_openai_streaming parse exec saveOk' systemContent dateContext
            history userMessage outcome).events) := by
  constructor
  · intro saveOk hs
    have h1 : save_message saveOk [] "user" userMessage
        = [("user", if userMessage = "" ∨ pyStrip userMessage = ""
            then "Empty message" else userMessage)] := by
      simp only [save_message]
      rw [if_pos hs]
      rfl
    rcases outcome with e | ⟨chunks, ferr, fstream⟩
    · simp only [call_openai_streaming, save_message, h1]
      split_ifs <;> rfl
    · simp only [call_openai_streaming, h1]
      rfl
  · intro saveOk saveOk'
    rcases outcome with e | ⟨chunks, ferr, fstream⟩
    · rfl
    · simp only [call_openai_streaming]
      exact handle_events_indep parse exec saveOk saveOk' chunks ferr fstream _

/-- C9 (witness): with an accepting store, the first persisted message of a
concrete run is the message of the user. -/
theorem user_message_persisted_first_witness :
    (call_openai_streaming (A := Unit)
        (fun _ => Except.ok ()) (fun _ _ => Except.ok "\"ok\"")
        (fun _ _ => true) "sys" "date" [] "hello"
        (ModelOutcome.stream [[⟨some "hi", none⟩]] none
          (Except.ok ([], none)))).saved.head?
      = some ("user", if "hello" = "" ∨ pyStrip "hello" = ""
          then "Empty message" else "hello") :=
  (user_message_persisted_first (A := Unit) (fun _ => Except.ok ())
    (fun _ _ => Except.ok "\"ok\"") "sys" "date" [] "hello"
    (ModelOutcome.stream [[⟨some "hi", none⟩]] none
      (Except.ok ([], none)))).1 (fun _ _ => true) (by decide)

end Pulse
